import Mathlib

/-!
Verification development for the DesktopAutoSort desktop-icon organizer.

The definitions below are a shallow embedding of the Python sources:
  * `src/core/classifier.py` — `IconGroup.matches`, `Classifier.classify`,
    `Classifier.classify_icons`
  * `src/core/layout.py`     — `LayoutManager._sort_icons`,
    `LayoutManager.calculate_positions` (including the nested
    `get_next_free_cell`)
  * `src/core/presets.py`    — `PRESETS`, `apply_preset`,
    `_apply_dynamic_extension_preset`
  * `src/core/desktop.py`    — `DesktopIcon`, `MonitorInfo.work_area`,
    `DesktopIconManager.get_grid_origin`

Python strings are modelled by Lean `String`; where the source lowercases or
lexicographically compares strings we work on the underlying character list
(`String.data`), which matches Python's code-point ordering.  `os.stat` and
`os.path.exists` are modelled by an abstract `FileSystem` map.  Python sets
are modelled by lists used only through membership.  Python `dict`s are
modelled by association lists with first-key-wins lookup; insertion either
updates the (unique) slot in place or appends, exactly like a Python dict.
-/

namespace DAS

/-- Result of `os.stat` for a path: the three fields the layout code reads.
Values are natural numbers: `st_ctime`, `st_mtime` and `st_size` are
non-negative in the source's environment. -/
structure Stat where
  st_ctime : Nat
  st_mtime : Nat
  st_size : Nat
deriving DecidableEq, Repr

/-- Abstract filesystem: `fs p = some st` models `os.path.exists p` being
true with `os.stat p = st`; `none` models a missing path. -/
def FileSystem : Type := String → Option Stat

/-- `desktop.py` `DesktopIcon` dataclass. -/
structure DesktopIcon where
  name : String
  path : String
  x : Int
  y : Int
  is_folder : Bool
  extension : String
  is_system_icon : Bool := false
deriving DecidableEq, Repr

/-- `classifier.py` `IconGroup` dataclass.  `extensions` is a Python set of
lowercase dot-prefixed strings; only membership is ever used, so a list
models it. -/
structure IconGroup where
  name : String
  extensions : List String
  enabled : Bool := true
  is_folder_group : Bool := false
  is_shortcut_group : Bool := false
  is_system_group : Bool := false
  priority : Int := 0
  start_from_right : Bool := false
  merge_group : String := ""
deriving DecidableEq, Repr

/-- The work-area rectangle of `desktop.py` `MonitorInfo.work_area`
(`left, top, right, bottom`). -/
structure WorkArea where
  left : Int
  top : Int
  right : Int
  bottom : Int
deriving DecidableEq, Repr

/-- `desktop.py` `MonitorInfo`, restricted to the only field
`calculate_positions` reads. -/
structure MonitorInfo where
  work_area : WorkArea
deriving DecidableEq, Repr

/-- `layout.py` `SortOrder` enum. -/
inductive SortOrder where
  | name_asc | name_desc
  | created_asc | created_desc
  | modified_asc | modified_desc
  | size_asc | size_desc
deriving DecidableEq, Repr

/-- The `value` string of each `SortOrder` member. -/
def SortOrder.value : SortOrder → String
  | .name_asc => "name_asc"
  | .name_desc => "name_desc"
  | .created_asc => "created_asc"
  | .created_desc => "created_desc"
  | .modified_asc => "modified_asc"
  | .modified_desc => "modified_desc"
  | .size_asc => "size_asc"
  | .size_desc => "size_desc"

/-- `sort_order.value.endswith("_desc")` from `_sort_icons`. -/
def SortOrder.isDesc (so : SortOrder) : Bool :=
  List.isSuffixOf "_desc".data so.value.data

/-- `layout.py` `ArrangeDirection` enum. -/
inductive ArrangeDirection where
  | vertical | horizontal
deriving DecidableEq, Repr

/-- `layout.py` `LayoutSettings` dataclass. -/
structure LayoutSettings where
  direction : ArrangeDirection := .vertical
  sort_order : SortOrder := .name_asc
  start_from_right : Bool := false
  margin_left : Int := 20
  margin_top : Int := 20
  margin_right : Int := 20
  margin_bottom : Int := 20
deriving DecidableEq, Repr

/-- Python `str.lower`, character by character on code points. -/
def pyLower (s : String) : String := ⟨s.data.map Char.toLower⟩

/-- `IconGroup.matches` from `classifier.py`. -/
def IconGroup.matchesIcon (g : IconGroup) (extension : String)
    (is_folder : Bool) (is_system : Bool) : Bool :=
  if g.enabled = false then false
  else if g.is_system_group then is_system
  else if g.is_folder_group then is_folder && !is_system
  else if g.is_shortcut_group then
    (if pyLower extension = ".lnk" then !is_system else false)
  else
    (if pyLower extension ∈ g.extensions then !is_system else false)

/-- `Classifier.classify`: the first matching group's name, with the
constant fallback. -/
def classify (groups : List IconGroup) (extension : String)
    (is_folder : Bool) (is_system : Bool) : String :=
  match groups.find? (fun g => g.matchesIcon extension is_folder is_system) with
  | some g => g.name
  | none => "其他"

/-- The dict-initialization loop of `classify_icons`: one empty list per
enabled group, in iteration order.  Re-assigning an existing dict key to
`[]` is a no-op, so duplicate enabled names keep their first slot. -/
def initGroupsDict (groups : List IconGroup) :
    List (String × List DesktopIcon) :=
  groups.foldl
    (fun acc g =>
      if g.enabled then
        if acc.any (fun kv => kv.1 = g.name) then acc
        else acc ++ [(g.name, [])]
      else acc)
    []

/-- `result[group_name].append(icon)` guarded by `group_name in result`:
append to the (unique) slot with that key, no-op if the key is absent. -/
def assocAppend (res : List (String × List DesktopIcon)) (key : String)
    (icon : DesktopIcon) : List (String × List DesktopIcon) :=
  res.map (fun kv => if kv.1 = key then (kv.1, kv.2 ++ [icon]) else kv)

/-- `Classifier.classify_icons`. -/
def classify_icons (groups : List IconGroup) (icons : List DesktopIcon) :
    List (String × List DesktopIcon) :=
  let init := initGroupsDict groups
  let filled := icons.foldl
    (fun res icon =>
      assocAppend res
        (classify groups icon.extension icon.is_folder icon.is_system_icon)
        icon)
    init
  filled.filter (fun kv => !kv.2.isEmpty)

/-- Secondary sort key of `_sort_icons`: either a lowercased name or a
numeric stat value.  For any single sort order only one constructor ever
occurs, mirroring Python where all secondary keys of one run share a type. -/
inductive Sec where
  | str (s : List Char)
  | num (n : Nat)
deriving DecidableEq, Repr

/-- Comparison on secondary keys as Python's `<=` behaves on them
(code-point lexicographic for strings, numeric otherwise).  The mixed cases
are arbitrary and never reached for a fixed sort order. -/
def Sec.le : Sec → Sec → Bool
  | .str a, .str b => decide (a ≤ b)
  | .num a, .num b => decide (a ≤ b)
  | .str _, .num _ => true
  | .num _, .str _ => false

/-- The secondary key computed in `get_sort_key` of `_sort_icons`. -/
def secondary (fs : FileSystem) (so : SortOrder) (icon : DesktopIcon) : Sec :=
  if so = .name_asc ∨ so = .name_desc then
    .str (icon.name.data.map Char.toLower)
  else if icon.path = "" then .num 0
  else
    match fs icon.path with
    | none => .num 0
    | some st =>
      if so = .created_asc ∨ so = .created_desc then .num st.st_ctime
      else if so = .modified_asc ∨ so = .modified_desc then .num st.st_mtime
      else if so = .size_asc ∨ so = .size_desc then
        .num (if icon.is_folder then 0 else st.st_size)
      else .str (icon.name.data.map Char.toLower)

/-- `get_sort_key`: primary priority, secondary from the sort order. -/
def sortKey (fs : FileSystem) (so : SortOrder) (item : Int × DesktopIcon) :
    Int × Sec :=
  (item.1, secondary fs so item.2)

/-- Python tuple `<=` on `(priority, secondary)` keys. -/
def keyLe (a b : Int × Sec) : Bool :=
  decide (a.1 < b.1) || (decide (a.1 = b.1) && Sec.le a.2 b.2)

/-- Insert into a `le`-sorted list after all elements that are `le` the new
one: the insertion step of a stable sort. -/
def insertLe {α : Type} (le : α → α → Bool) (x : α) : List α → List α
  | [] => [x]
  | y :: ys => if le y x then y :: insertLe le x ys else x :: y :: ys

/-- Stable insertion sort; for a total preorder `le` this agrees with
Python's stable `sorted`. -/
def stableSort {α : Type} (le : α → α → Bool) (l : List α) : List α :=
  l.foldl (fun acc x => insertLe le x acc) []

/-- One step of grouping consecutive related elements, as
`itertools.groupby` does. -/
def chunkCons {α : Type} (p : α → α → Bool) (x : α) :
    List (List α) → List (List α)
  | (y :: ys) :: cs => if p x y then (x :: y :: ys) :: cs else [x] :: (y :: ys) :: cs
  | cs => [x] :: cs

/-- Group consecutive elements related by `p` (`itertools.groupby`). -/
def chunkBy {α : Type} (p : α → α → Bool) : List α → List (List α)
  | [] => []
  | x :: xs => chunkCons p x (chunkBy p xs)

/-- `_sort_icons` before the final projection to icons: sort by
`(priority, secondary)`; for a `_desc` order, regroup by priority and
re-sort each priority bucket by the secondary key descending
(`list.sort(..., reverse=True)` is the stable sort by the flipped
comparison). -/
def sort_icons_tagged (fs : FileSystem) (so : SortOrder)
    (l : List (Int × DesktopIcon)) : List (Int × DesktopIcon) :=
  let sorted := stableSort (fun a b => keyLe (sortKey fs so a) (sortKey fs so b)) l
  if so.isDesc then
    ((chunkBy (fun a b => a.1 == b.1) sorted).map
      (fun c =>
        stableSort
          (fun a b => Sec.le (sortKey fs so b).2 (sortKey fs so a).2) c)).flatten
  else sorted

/-- `LayoutManager._sort_icons`: the tagged sort projected to icons. -/
def sort_icons (fs : FileSystem) (so : SortOrder)
    (l : List (Int × DesktopIcon)) : List DesktopIcon :=
  (sort_icons_tagged fs so l).map (fun item => item.2)

/-- First-key lookup in an association list, as Python dict lookup on the
unique-key dicts used by the source. -/
def lookupAssoc {β : Type} (l : List (String × β)) (k : String) : Option β :=
  (l.find? (fun kv => kv.1 = k)).map (fun kv => kv.2)

/-- The `active_groups` loop of `calculate_positions`: groups whose name maps
to a non-empty icon list, in `groups` order. -/
def active_groups (classified : List (String × List DesktopIcon))
    (groups : List IconGroup) : List (IconGroup × List DesktopIcon) :=
  groups.foldl
    (fun acc g =>
      match lookupAssoc classified g.name with
      | some icons => if icons.isEmpty then acc else acc ++ [(g, icons)]
      | none => acc)
    []

/-- The merge loop of `calculate_positions`: groups sharing a non-empty
`merge_group` collapse, at the first occurrence of that id, into one unit
holding every member group's icons tagged with the member's own priority;
groups with an empty `merge_group` become singleton units. -/
def build_merged (active : List (IconGroup × List DesktopIcon)) :
    List (String × List (Int × DesktopIcon)) :=
  (active.foldl
    (fun (acc : List (String × List (Int × DesktopIcon)) × List String) gi =>
      let merge_id := gi.1.merge_group
      if merge_id ≠ "" ∧ merge_id ∉ acc.2 then
        let combined := active.flatMap
          (fun gj =>
            if gj.1.merge_group = merge_id then
              gj.2.map (fun icon => (gj.1.priority, icon))
            else [])
        (acc.1 ++ [(merge_id, combined)], acc.2 ++ [merge_id])
      else if merge_id = "" then
        (acc.1 ++ [(gi.1.name, gi.2.map (fun icon => (gi.1.priority, icon)))],
         acc.2)
      else acc)
    ([], [])).1

/-- `max_rows` of `calculate_positions`:
`max(1, available_height // v_spacing)` (Python floor division). -/
def grid_max_rows (settings : LayoutSettings) (monitor : MonitorInfo)
    (v_spacing : Int) : Nat :=
  (max 1 ((monitor.work_area.bottom - monitor.work_area.top -
      settings.margin_top - settings.margin_bottom).fdiv v_spacing)).toNat

/-- `max_cols` of `calculate_positions`:
`max(1, available_width // h_spacing)`. -/
def grid_max_cols (settings : LayoutSettings) (monitor : MonitorInfo)
    (h_spacing : Int) : Nat :=
  (max 1 ((monitor.work_area.right - monitor.work_area.left -
      settings.margin_left - settings.margin_right).fdiv h_spacing)).toNat

/-- Grid origin actually used: the provided origin (a Python tuple is always
truthy), else work-area corner plus margins. -/
def origin_of (settings : LayoutSettings) (monitor : MonitorInfo)
    (grid_origin : Option (Int × Int)) : Int × Int :=
  match grid_origin with
  | some o => o
  | none =>
    (monitor.work_area.left + settings.margin_left,
     monitor.work_area.top + settings.margin_top)

/-- `x = origin_x + col * h_spacing`, `y = origin_y + row * v_spacing`. -/
def cellPos (origin : Int × Int) (h_spacing v_spacing : Int)
    (c : Nat × Nat) : Int × Int :=
  (origin.1 + (c.1 : Int) * h_spacing, origin.2 + (c.2 : Int) * v_spacing)

/-- The nested `get_next_free_cell` of `calculate_positions`: scan the
stated candidate cells in order and return the first one not occupied. -/
def get_next_free_cell (occupied : List (Nat × Nat))
    (start_col start_row max_cols max_rows : Nat) (prefer_vertical : Bool) :
    Option (Nat × Nat) :=
  let candidates :=
    if prefer_vertical then
      ((List.range' start_col (max_cols - start_col)).flatMap
        (fun col =>
          (if col = start_col then
              List.range' start_row (max_rows - start_row)
            else List.range max_rows).map (fun row => (col, row)))) ++
      ((List.range start_col).flatMap
        (fun col => (List.range max_rows).map (fun row => (col, row))))
    else
      ((List.range' start_row (max_rows - start_row)).flatMap
        (fun row =>
          (if row = start_row then
              List.range' start_col (max_cols - start_col)
            else List.range max_cols).map (fun col => (col, row)))) ++
      ((List.range start_row).flatMap
        (fun row => (List.range max_cols).map (fun col => (col, row))))
  candidates.find? (fun c => !(decide (c ∈ occupied)))

/-- The mutable state threaded through placement: the `positions` dict and
the `occupied_cells` set. -/
structure PState where
  positions : List (String × (Int × Int))
  occupied : List (Nat × Nat)
deriving DecidableEq, Repr

/-- Python dict assignment `positions[name] = v`: update the unique existing
slot in place, else append. -/
def posInsert (ps : List (String × (Int × Int))) (k : String)
    (v : Int × Int) : List (String × (Int × Int)) :=
  if ps.any (fun kv => kv.1 = k) then
    ps.map (fun kv => if kv.1 = k then (kv.1, v) else kv)
  else ps ++ [(k, v)]

/-- Record a position and occupy its cell. -/
def placeAt (origin : Int × Int) (h_spacing v_spacing : Int)
    (icon : DesktopIcon) (c : Nat × Nat) (st : PState) : PState :=
  { positions := posInsert st.positions icon.name (cellPos origin h_spacing v_spacing c),
    occupied := c :: st.occupied }

/-- Placement of the `i`-th icon of a unit in the VERTICAL branch.
`max(0, a - b)` on non-negative ints is natural subtraction. -/
def stepV (origin : Int × Int) (h_spacing v_spacing : Int)
    (max_cols max_rows : Nat) (from_right : Bool) (group_start_col : Nat)
    (st : PState) (ix : Nat × DesktopIcon) : PState :=
  let col_offset := ix.1 / max_rows
  let row_idx := ix.1 % max_rows
  let preferred_col :=
    if from_right then group_start_col - col_offset
    else min (max_cols - 1) (group_start_col + col_offset)
  if decide ((preferred_col, row_idx) ∉ st.occupied) then
    placeAt origin h_spacing v_spacing ix.2 (preferred_col, row_idx) st
  else
    match get_next_free_cell st.occupied preferred_col row_idx
        max_cols max_rows true with
    | some c => placeAt origin h_spacing v_spacing ix.2 c st
    | none => st

/-- Placement of the `i`-th icon of a unit in the HORIZONTAL branch. -/
def stepH (origin : Int × Int) (h_spacing v_spacing : Int)
    (max_cols max_rows : Nat) (from_right : Bool) (group_start_row : Nat)
    (st : PState) (ix : Nat × DesktopIcon) : PState :=
  let row_offset := ix.1 / max_cols
  let col_idx := ix.1 % max_cols
  let preferred_row := min (max_rows - 1) (group_start_row + row_offset)
  let preferred_col :=
    if from_right then max_cols - 1 - col_idx else col_idx
  if decide ((preferred_col, preferred_row) ∉ st.occupied) then
    placeAt origin h_spacing v_spacing ix.2 (preferred_col, preferred_row) st
  else
    match get_next_free_cell st.occupied preferred_col preferred_row
        max_cols max_rows false with
    | some c => placeAt origin h_spacing v_spacing ix.2 c st
    | none => st

/-- The VERTICAL branch of `calculate_positions`: fold the units (reversed
when `start_from_right`) over the column cursor. -/
def runVertical (fs : FileSystem) (so : SortOrder) (origin : Int × Int)
    (h_spacing v_spacing : Int) (max_cols max_rows : Nat) (from_right : Bool)
    (units : List (String × List (Int × DesktopIcon))) : PState :=
  let group_list := if from_right then units.reverse else units
  let init_col := if from_right then max_cols - 1 else 0
  (group_list.foldl
    (fun (acc : PState × Nat) unit =>
      let sorted_icons := sort_icons fs so unit.2
      let st :=
        sorted_icons.enum.foldl
          (stepV origin h_spacing v_spacing max_cols max_rows from_right acc.2)
          acc.1
      let cols_used := max 1 ((sorted_icons.length + max_rows - 1) / max_rows)
      let next_col :=
        if from_right then acc.2 - cols_used
        else min (max_cols - 1) (acc.2 + cols_used)
      (st, next_col))
    (⟨[], []⟩, init_col)).1

/-- The HORIZONTAL branch of `calculate_positions`. -/
def runHorizontal (fs : FileSystem) (so : SortOrder) (origin : Int × Int)
    (h_spacing v_spacing : Int) (max_cols max_rows : Nat) (from_right : Bool)
    (units : List (String × List (Int × DesktopIcon))) : PState :=
  (units.foldl
    (fun (acc : PState × Nat) unit =>
      let sorted_icons := sort_icons fs so unit.2
      let st :=
        sorted_icons.enum.foldl
          (stepH origin h_spacing v_spacing max_cols max_rows from_right acc.2)
          acc.1
      let rows_used := max 1 ((sorted_icons.length + max_cols - 1) / max_cols)
      let next_row := min (max_rows - 1) (acc.2 + rows_used)
      (st, next_row))
    (⟨[], []⟩, 0)).1

/-- `LayoutManager.calculate_positions`.  The filesystem and the layout
settings are explicit parameters (the source reads them from `os` and
`self.settings`). -/
def calculate_positions (fs : FileSystem) (settings : LayoutSettings)
    (classified : List (String × List DesktopIcon)) (groups : List IconGroup)
    (monitor : MonitorInfo) (icon_spacing : Int × Int)
    (grid_origin : Option (Int × Int)) : List (String × (Int × Int)) :=
  let h_spacing := icon_spacing.1
  let v_spacing := icon_spacing.2
  let origin := origin_of settings monitor grid_origin
  let active := active_groups classified groups
  if active.isEmpty then []
  else
    let merged := build_merged active
    let from_right := settings.start_from_right
    let max_rows := grid_max_rows settings monitor v_spacing
    let max_cols := grid_max_cols settings monitor h_spacing
    if settings.direction = .vertical then
      (runVertical fs settings.sort_order origin h_spacing v_spacing
        max_cols max_rows from_right merged).positions
    else
      (runHorizontal fs settings.sort_order origin h_spacing v_spacing
        max_cols max_rows from_right merged).positions

/-- `DesktopIconManager.get_grid_origin` applied to icons sitting at the
positions of a computed mapping: the componentwise minimum, or the fixed
default `(20, 2)` when there are no icons. -/
def grid_origin_of_positions (ps : List (String × (Int × Int))) : Int × Int :=
  match ps with
  | [] => (20, 2)
  | p :: rest =>
    (rest.foldl (fun acc q => min acc q.2.1) p.2.1,
     rest.foldl (fun acc q => min acc q.2.2) p.2.2)

/-- One group specification inside a preset (`presets.py` dicts), with the
same defaults `apply_preset` supplies via `g_data.get(...)`. -/
structure PresetGroupSpec where
  name : String
  extensions : List String := []
  enabled : Bool := true
  is_folder_group : Bool := false
  is_shortcut_group : Bool := false
  is_system_group : Bool := false
  priority : Int := 50
  merge_group : String := ""
deriving DecidableEq, Repr

/-- A preset: display name, the `dynamic` flag, and its stored group list. -/
structure Preset where
  display_name : String
  dynamic : Bool := false
  groups : List PresetGroupSpec
deriving DecidableEq, Repr

/-- The `IconGroup` built from one preset entry in `apply_preset`
(`start_from_right` is always reset to false there). -/
def specToGroup (s : PresetGroupSpec) : IconGroup :=
  { name := s.name, extensions := s.extensions, enabled := s.enabled,
    is_folder_group := s.is_folder_group,
    is_shortcut_group := s.is_shortcut_group,
    is_system_group := s.is_system_group, priority := s.priority,
    start_from_right := false, merge_group := s.merge_group }

/-- The built-in `PRESETS` dict of `presets.py`. -/
def PRESETS : List (String × Preset) :=
  [("default",
    { display_name := "默认模式",
      groups :=
        [{ name := "系统图标", is_system_group := true, priority := 0,
           merge_group := "系统" },
         { name := "快捷方式", is_shortcut_group := true, priority := 1,
           merge_group := "系统" },
         { name := "程序", extensions := [".exe", ".msi", ".bat", ".cmd", ".ps1"],
           priority := 2 },
         { name := "文件夹", is_folder_group := true, priority := 3 },
         { name := "PDF", extensions := [".pdf"], priority := 4 },
         { name := "Word", extensions := [".doc", ".docx"], priority := 5 },
         { name := "Excel", extensions := [".xls", ".xlsx", ".csv"], priority := 6 },
         { name := "PPT", extensions := [".ppt", ".pptx"], priority := 7 },
         { name := "文本", extensions := [".txt", ".rtf", ".md"], priority := 8 },
         { name := "图片",
           extensions := [".jpg", ".jpeg", ".png", ".gif", ".bmp", ".webp",
             ".svg", ".ico"], priority := 9 },
         { name := "视频",
           extensions := [".mp4", ".mkv", ".avi", ".mov", ".wmv", ".flv",
             ".webm", ".ts", ".rmvb"], priority := 10 },
         { name := "音频",
           extensions := [".mp3", ".wav", ".flac", ".aac", ".ogg", ".wma",
             ".m4a"], priority := 11 },
         { name := "压缩包", extensions := [".zip", ".rar", ".7z", ".tar", ".gz"],
           priority := 12 },
         { name := "网页",
           extensions := [".html", ".htm", ".xml", ".xhtml", ".css", ".js"],
           priority := 13 },
         { name := "其他", priority := 999 }] }),
   ("compact",
    { display_name := "紧凑模式",
      groups :=
        [{ name := "系统图标", is_system_group := true, priority := 0,
           merge_group := "系统" },
         { name := "快捷方式", is_shortcut_group := true, priority := 1,
           merge_group := "系统" },
         { name := "文件夹", is_folder_group := true, priority := 2 },
         { name := "文档",
           extensions := [".pdf", ".doc", ".docx", ".xls", ".xlsx", ".ppt",
             ".pptx", ".txt", ".rtf"], priority := 3, merge_group := "文档" },
         { name := "图片",
           extensions := [".jpg", ".jpeg", ".png", ".gif", ".bmp", ".webp",
             ".svg", ".ico"], priority := 4, merge_group := "媒体" },
         { name := "视频",
           extensions := [".mp4", ".mkv", ".avi", ".mov", ".wmv", ".flv",
             ".webm"], priority := 5, merge_group := "媒体" },
         { name := "音频",
           extensions := [".mp3", ".wav", ".flac", ".aac", ".ogg", ".wma",
             ".m4a"], priority := 6, merge_group := "媒体" },
         { name := "压缩包", extensions := [".zip", ".rar", ".7z", ".tar", ".gz"],
           priority := 7 },
         { name := "程序", extensions := [".exe", ".msi", ".bat", ".cmd", ".ps1"],
           priority := 8 },
         { name := "其他", priority := 999 }] }),
   ("by_extension",
    { display_name := "按扩展名 (智能)", dynamic := true, groups := [] }),
   ("minimal",
    { display_name := "极简模式",
      groups :=
        [{ name := "系统图标", is_system_group := true, priority := 0,
           merge_group := "系统" },
         { name := "快捷方式", is_shortcut_group := true, priority := 1,
           merge_group := "系统" },
         { name := "文件夹", is_folder_group := true, priority := 2,
           merge_group := "文件" },
         { name := "文档",
           extensions := [".pdf", ".doc", ".docx", ".xls", ".xlsx", ".ppt",
             ".pptx", ".txt", ".rtf"], priority := 3, merge_group := "文件" },
         { name := "图片",
           extensions := [".jpg", ".jpeg", ".png", ".gif", ".bmp", ".webp",
             ".svg", ".ico"], priority := 4, merge_group := "文件" },
         { name := "视频",
           extensions := [".mp4", ".mkv", ".avi", ".mov", ".wmv", ".flv",
             ".webm"], priority := 5, merge_group := "文件" },
         { name := "音频",
           extensions := [".mp3", ".wav", ".flac", ".aac", ".ogg", ".wma",
             ".m4a"], priority := 6, merge_group := "文件" },
         { name := "压缩包", extensions := [".zip", ".rar", ".7z", ".tar", ".gz"],
           priority := 7, merge_group := "文件" },
         { name := "程序", extensions := [".exe", ".msi", ".bat", ".cmd", ".ps1"],
           priority := 8, merge_group := "文件" },
         { name := "其他", priority := 999, merge_group := "文件" }] })]

/-- `_apply_dynamic_extension_preset`, parameterized by the sorted list of
distinct lowercase extensions the desktop scan collected (that scan itself
is filesystem I/O). -/
def dyn_extension_groups (exts_sorted : List String) : List IconGroup :=
  [{ name := "系统图标", extensions := [], is_system_group := true,
     priority := 0, merge_group := "系统" },
   { name := "快捷方式", extensions := [], is_shortcut_group := true,
     priority := 1, merge_group := "系统" },
   { name := "文件夹", extensions := [], is_folder_group := true,
     priority := 2 }] ++
  exts_sorted.enum.map
    (fun p =>
      { name := p.2, extensions := [p.2], priority := (10 : Int) + p.1 }) ++
  [{ name := "其他", extensions := [], priority := 999 }]

/-- `apply_preset` from `presets.py`, over the built-in `PRESETS` table:
returns the Python function's boolean result together with the classifier's
group list after the call (the source mutates `classifier.groups`, clearing
it before the dynamic-preset check). -/
def apply_preset (exts_sorted : List String) (groups : List IconGroup)
    (preset_id : String) : Bool × List IconGroup :=
  match PRESETS.find? (fun kv => kv.1 = preset_id) with
  | none => (false, groups)
  | some kv =>
    if kv.2.dynamic then
      if preset_id = "by_extension" then (true, dyn_extension_groups exts_sorted)
      else (false, [])
    else (true, kv.2.groups.map specToGroup)

/-- The full group list a preset stands for: the stored list converted, or
the dynamically generated list for the dynamic preset. -/
def preset_full_groups (exts_sorted : List String) (preset_id : String) :
    List IconGroup :=
  match PRESETS.find? (fun kv => kv.1 = preset_id) with
  | none => []
  | some kv =>
    if kv.2.dynamic then dyn_extension_groups exts_sorted
    else kv.2.groups.map specToGroup

/-! Concrete instances used by the example claims and by witnesses. -/

/-- A filesystem on which no path exists. -/
def fs0 : FileSystem := fun _ => none

/-- A filesystem with a single existing file of size 30. -/
def fsOne : FileSystem := fun p =>
  if p = "C:/exists.bin" then some ⟨10, 20, 30⟩ else none

/-- A desktop icon at position (0,0) with the given name, folder flag and
extension. -/
def sampleIcon (n : String) (folder : Bool) (ext : String) : DesktopIcon :=
  { name := n, path := "", x := 0, y := 0, is_folder := folder,
    extension := ext }

/-- A desktop icon whose backing file is the given path. -/
def fileIcon (n : String) (p : String) (ext : String) : DesktopIcon :=
  { name := n, path := p, x := 0, y := 0, is_folder := false,
    extension := ext }

/-- The folder group of the worked examples (priority 0). -/
def gFolders : IconGroup :=
  { name := "Folders", extensions := [], is_folder_group := true,
    priority := 0 }

/-- The document group of the worked examples (priority 1). -/
def gDocs : IconGroup :=
  { name := "Docs", extensions := [".pdf", ".txt"], priority := 1 }

/-- A monitor whose work area, under the default margins, yields
`max_rows = 4` at v-spacing 50 and `max_cols = 2` at h-spacing 100. -/
def mon2x4 : MonitorInfo :=
  { work_area := { left := 0, top := 0, right := 240, bottom := 240 } }

/-- A monitor whose work area, under the default margins, yields
`max_cols = 5` at h-spacing 100 and `max_rows = 4` at v-spacing 50. -/
def mon5x4 : MonitorInfo :=
  { work_area := { left := 0, top := 0, right := 540, bottom := 240 } }

/-- A monitor whose work area, under the default margins, yields
`max_cols = 3` at h-spacing 100 and `max_rows = 1` at v-spacing 50. -/
def mon3x1 : MonitorInfo :=
  { work_area := { left := 0, top := 0, right := 380, bottom := 130 } }

/-- Three folder icons and two pdf icons, classified under the two example
groups. -/
def classifiedExample : List (String × List DesktopIcon) :=
  [("Folders",
    [sampleIcon "f1" true "", sampleIcon "f2" true "", sampleIcon "f3" true ""]),
   ("Docs", [sampleIcon "d1" false ".pdf", sampleIcon "d2" false ".pdf"])]

/-- An enabled catch-all group named 其他. -/
def gOther : IconGroup := { name := "其他", extensions := [], priority := 999 }

/-- An extension group named GA with priority 0. -/
def gA : IconGroup := { name := "GA", extensions := [".aa"], priority := 0 }

/-- An extension group named GB with priority 1. -/
def gB : IconGroup := { name := "GB", extensions := [".bb"], priority := 1 }

/-- One icon per group GA and GB. -/
def classifiedAB : List (String × List DesktopIcon) :=
  [("GA", [sampleIcon "A" false ".aa"]), ("GB", [sampleIcon "B" false ".bb"])]

/-- A single icon classified under GA. -/
def classifiedSingle : List (String × List DesktopIcon) :=
  [("GA", [sampleIcon "A" false ".aa"])]

/-- A group with priority 2 in merge group M. -/
def gM2 : IconGroup :=
  { name := "M2", extensions := [".aa"], priority := 2, merge_group := "M" }

/-- A group with priority 5 in merge group M. -/
def gM5 : IconGroup :=
  { name := "M5", extensions := [".bb"], priority := 5, merge_group := "M" }

/-- Horizontal layout starting from the right, defaults otherwise. -/
def setHorizontalRight : LayoutSettings :=
  { direction := .horizontal, start_from_right := true }

/-- Vertical layout starting from the right, defaults otherwise. -/
def setVerticalRight : LayoutSettings := { start_from_right := true }

/-- The cell receiving the `i`-th icon of a unit that starts at column 0 of
an empty vertical grid of height `R`: the source's
`(i // max_rows, i % max_rows)`. -/
def cellOf (R i : Nat) : Nat × Nat := (i / R, i % R)

/-- Invariant carried through placement: the dict keys are pairwise
distinct, the values pairwise distinct, and every value renders a distinct
in-grid occupied cell. -/
def StateInv (origin : Int × Int) (h_spacing v_spacing : Int)
    (max_cols max_rows : Nat) (st : PState) : Prop :=
  st.positions.Pairwise (fun a b => a.1 ≠ b.1 ∧ a.2 ≠ b.2) ∧
  ∀ kv ∈ st.positions, ∃ c, c ∈ st.occupied ∧ c.1 < max_cols ∧
    c.2 < max_rows ∧ kv.2 = cellPos origin h_spacing v_spacing c

/-!  Theorems.  Each claim's theorem carries the claim id in its doc
comment. -/

/-- C3: with groups Folders (priority 0, folder group) and Docs (priority
1), three folders and two pdfs, VERTICAL direction, `start_from_right`
false, `max_rows = 4`, spacing (100, 50) and grid origin (0, 0),
`calculate_positions` puts the folders at (0,0), (0,50), (0,100) in column
0 and the docs at (100,0), (100,50) in column 1. -/
theorem vertical_priority_example :
    grid_max_rows {} mon2x4 50 = 4 ∧
    calculate_positions fs0 {} classifiedExample [gFolders, gDocs] mon2x4
        (100, 50) (some (0, 0)) =
      [("f1", (0, 0)), ("f2", (0, 50)), ("f3", (0, 100)),
       ("d1", (100, 0)), ("d2", (100, 50))] := by decide

/-- C4 counterexample: with `start_from_right` set and `max_cols = 5`, the
code processes the units in reversed order, so the Folders unit lands in
column 3 (x = 300), not in the rightmost column 4 (x = 400) as the claim
states; Docs take column 4. -/
theorem start_from_right_example_cex :
    grid_max_cols setVerticalRight mon5x4 100 = 5 ∧
    lookupAssoc (calculate_positions fs0 setVerticalRight classifiedExample
        [gFolders, gDocs] mon5x4 (100, 50) (some (0, 0))) "f1" =
      some (300, 0) ∧
    lookupAssoc (calculate_positions fs0 setVerticalRight classifiedExample
        [gFolders, gDocs] mon5x4 (100, 50) (some (0, 0))) "d1" =
      some (400, 0) ∧
    ¬ lookupAssoc (calculate_positions fs0 setVerticalRight classifiedExample
        [gFolders, gDocs] mon5x4 (100, 50) (some (0, 0))) "f1" =
      some (400, 0) := by decide

/-- C4 amended: under `start_from_right` with `max_cols = 5` the units are
processed in reversed priority order, so the LAST unit in priority order
(Docs) occupies the rightmost column 4 and Folders occupy column 3; the
left-to-right order of the units is the same as without the flag, anchored
at the right edge. -/
theorem start_from_right_example_amended :
    calculate_positions fs0 setVerticalRight classifiedExample
        [gFolders, gDocs] mon5x4 (100, 50) (some (0, 0)) =
      [("d1", (400, 0)), ("d2", (400, 50)),
       ("f1", (300, 0)), ("f2", (300, 50)), ("f3", (300, 100))] := by decide

/-- C5: on a 3-column, 1-row grid in HORIZONTAL direction with
`start_from_right`, icon A of the first unit takes cell (2,0); icon B's
preferred cell (2,0) is occupied, and `get_next_free_cell` returns `none`
even though cells (0,0) and (1,0) are free — its scan never revisits cells
before the start position in the start row — so B is dropped although the
grid is not full, contradicting the source's own "Grid is full" comment. -/
theorem grid_not_full_icon_dropped :
    get_next_free_cell [(2, 0)] 2 0 3 1 false = none ∧
    ((0, 0) : Nat × Nat) ∉ [((2, 0) : Nat × Nat)] ∧
    ((1, 0) : Nat × Nat) ∉ [((2, 0) : Nat × Nat)] ∧
    grid_max_cols setHorizontalRight mon3x1 100 = 3 ∧
    grid_max_rows setHorizontalRight mon3x1 50 = 1 ∧
    calculate_positions fs0 setHorizontalRight classifiedAB [gA, gB] mon3x1
        (100, 50) (some (0, 0)) = [("A", (200, 0))] := by decide

/-- C1 counterexample: with an empty group list (no enabled catch-all
group), `classify_icons` returns an empty mapping and the input icon is
dropped, so the partition property fails for arbitrary group lists. -/
theorem classify_icons_drop_cex :
    classify_icons [] [sampleIcon "A" false ".aa"] = [] ∧
    sampleIcon "A" false ".aa" ∉
      (classify_icons [] [sampleIcon "A" false ".aa"]).flatMap
        (fun kv => kv.2) := by decide

/-- C8 counterexample: with `start_from_right` and a single icon on a
5-column grid, the first run (origin (0,0)) places the icon at (400, 0);
recomputing the origin as the componentwise minimum of that output and
re-running yields (800, 0), so the output is not a fixed point. -/
theorem idempotence_from_right_cex :
    calculate_positions fs0 setVerticalRight classifiedSingle [gA] mon5x4
        (100, 50) (some (0, 0)) = [("A", (400, 0))] ∧
    grid_origin_of_positions [("A", (400, 0))] = (400, 0) ∧
    calculate_positions fs0 setVerticalRight classifiedSingle [gA] mon5x4
        (100, 50) (some (400, 0)) = [("A", (800, 0))] ∧
    calculate_positions fs0 setVerticalRight classifiedSingle [gA] mon5x4
        (100, 50) (some (400, 0)) ≠
      calculate_positions fs0 setVerticalRight classifiedSingle [gA] mon5x4
        (100, 50) (some (0, 0)) := by decide

/-! Generic lemmas about the stable insertion sort. -/

theorem mem_insertLe {α : Type} {le : α → α → Bool} {x a : α} :
    ∀ {l : List α}, a ∈ insertLe le x l ↔ a = x ∨ a ∈ l
  | [] => by simp [insertLe]
  | y :: ys => by
    simp only [insertLe]
    split
    · rw [List.mem_cons, mem_insertLe (l := ys), List.mem_cons]
      tauto
    · rw [List.mem_cons, List.mem_cons]

theorem insertLe_perm {α : Type} (le : α → α → Bool) (x : α) :
    ∀ (l : List α), (insertLe le x l).Perm (x :: l)
  | [] => by simp [insertLe]
  | y :: ys => by
    simp only [insertLe]
    split
    · exact ((insertLe_perm le x ys).cons y).trans (List.Perm.swap x y ys)
    · exact List.Perm.refl _

theorem foldl_insert_perm {α : Type} (le : α → α → Bool) :
    ∀ (l acc : List α),
      (l.foldl (fun acc x => insertLe le x acc) acc).Perm (acc ++ l)
  | [], acc => by simp
  | x :: xs, acc => by
    simp only [List.foldl_cons]
    refine (foldl_insert_perm le xs (insertLe le x acc)).trans ?_
    refine (List.Perm.append_right xs ((insertLe_perm le x acc))).trans ?_
    show (x :: acc ++ xs).Perm (acc ++ x :: xs)
    exact List.perm_middle.symm

theorem stableSort_perm {α : Type} (le : α → α → Bool) (l : List α) :
    (stableSort le l).Perm l := by
  simpa [stableSort] using foldl_insert_perm le l []

theorem mem_stableSort {α : Type} {le : α → α → Bool} {l : List α} {a : α} :
    a ∈ stableSort le l ↔ a ∈ l :=
  (stableSort_perm le l).mem_iff

theorem pairwise_insertLe {α : Type} {le : α → α → Bool}
    (htot : ∀ a b, le a b = true ∨ le b a = true)
    (htrans : ∀ a b c, le a b = true → le b c = true → le a c = true)
    (x : α) :
    ∀ {l : List α}, l.Pairwise (fun a b => le a b = true) →
      (insertLe le x l).Pairwise (fun a b => le a b = true)
  | [], _ => by simp [insertLe]
  | y :: ys, h => by
    rw [List.pairwise_cons] at h
    simp only [insertLe]
    split
    · rename_i hyx
      rw [List.pairwise_cons]
      refine ⟨fun z hz => ?_, pairwise_insertLe htot htrans x h.2⟩
      rcases mem_insertLe.1 hz with rfl | hz
      · exact hyx
      · exact h.1 z hz
    · rename_i hyx
      have hxy : le x y = true := by
        rcases htot x y with h' | h'
        · exact h'
        · exact absurd h' hyx
      rw [List.pairwise_cons]
      refine ⟨fun z hz => ?_, List.pairwise_cons.2 h⟩
      rcases List.mem_cons.1 hz with rfl | hz
      · exact hxy
      · exact htrans x y z hxy (h.1 z hz)

theorem pairwise_foldl_insert {α : Type} {le : α → α → Bool}
    (htot : ∀ a b, le a b = true ∨ le b a = true)
    (htrans : ∀ a b c, le a b = true → le b c = true → le a c = true) :
    ∀ (l acc : List α), acc.Pairwise (fun a b => le a b = true) →
      (l.foldl (fun acc x => insertLe le x acc) acc).Pairwise
        (fun a b => le a b = true)
  | [], _, h => h
  | x :: xs, acc, h =>
    pairwise_foldl_insert htot htrans xs (insertLe le x acc)
      (pairwise_insertLe htot htrans x h)

theorem stableSort_pairwise {α : Type} {le : α → α → Bool}
    (htot : ∀ a b, le a b = true ∨ le b a = true)
    (htrans : ∀ a b c, le a b = true → le b c = true → le a c = true)
    (l : List α) :
    (stableSort le l).Pairwise (fun a b => le a b = true) :=
  pairwise_foldl_insert htot htrans l [] (List.Pairwise.nil)

theorem insertLe_append {α : Type} {le : α → α → Bool} {x : α} :
    ∀ {A : List α} (B : List α), (∀ a ∈ A, le a x = true) →
      insertLe le x (A ++ B) = A ++ insertLe le x B
  | [], B, _ => by simp
  | a :: as, B, h => by
    simp only [List.cons_append, insertLe, h a (by simp)]
    simp [insertLe_append (A := as) B (fun a ha => h a (by simp [ha]))]

theorem foldl_insert_through {α : Type} {le : α → α → Bool} {S : List α} :
    ∀ (B : List α) (c : List α), (∀ a ∈ S, ∀ b ∈ B, le a b = true) →
      (B.foldl (fun acc x => insertLe le x acc) (S ++ c)) =
        S ++ B.foldl (fun acc x => insertLe le x acc) c
  | [], c, _ => by simp
  | b :: bs, c, h => by
    simp only [List.foldl_cons]
    rw [insertLe_append (A := S) c (fun a ha => h a ha b (by simp))]
    exact foldl_insert_through bs (insertLe le b c)
      (fun a ha b' hb' => h a ha b' (by simp [hb']))

theorem stableSort_append {α : Type} {le : α → α → Bool} {A B : List α}
    (h : ∀ a ∈ A, ∀ b ∈ B, le a b = true) :
    stableSort le (A ++ B) = stableSort le A ++ stableSort le B := by
  unfold stableSort
  rw [List.foldl_append]
  have hmem : ∀ a ∈ A.foldl (fun acc x => insertLe le x acc) [], a ∈ A := by
    intro a ha
    have := (foldl_insert_perm le A []).mem_iff.1 ha
    simpa using this
  have := @foldl_insert_through _ le
    (A.foldl (fun acc x => insertLe le x acc) []) B []
    (fun a ha b hb => h a (hmem a ha) b hb)
  simpa using this

/-! Totality and transitivity of the comparison functions. -/

theorem secLe_total (a b : Sec) : Sec.le a b = true ∨ Sec.le b a = true := by
  rcases a with s1 | n1 <;> rcases b with s2 | n2 <;> simp [Sec.le]
  · exact le_total s1 s2
  · exact le_total n1 n2

theorem secLe_trans (a b c : Sec) (hab : Sec.le a b = true)
    (hbc : Sec.le b c = true) : Sec.le a c = true := by
  rcases a with s1 | n1 <;> rcases b with s2 | n2 <;> rcases c with s3 | n3 <;>
    simp_all [Sec.le]
  · exact le_trans hab hbc
  · exact le_trans hab hbc

theorem keyLe_total (a b : Int × Sec) : keyLe a b = true ∨ keyLe b a = true := by
  unfold keyLe
  rcases lt_trichotomy a.1 b.1 with h | h | h
  · left; simp [h]
  · rcases secLe_total a.2 b.2 with h' | h'
    · left; simp [h, h']
    · right; simp [h.symm, h']
  · right; simp [h]

theorem keyLe_trans (a b c : Int × Sec) (hab : keyLe a b = true)
    (hbc : keyLe b c = true) : keyLe a c = true := by
  unfold keyLe at *
  simp only [Bool.or_eq_true, Bool.and_eq_true, decide_eq_true_eq] at *
  rcases hab with h1 | ⟨h1, h1'⟩ <;> rcases hbc with h2 | ⟨h2, h2'⟩
  · exact Or.inl (by omega)
  · exact Or.inl (by omega)
  · exact Or.inl (by omega)
  · exact Or.inr ⟨by omega, secLe_trans _ _ _ h1' h2'⟩

/-! Lemmas for the classifier partition (C1). -/

theorem matchesIcon_enabled {g : IconGroup} {e : String} {f s : Bool}
    (h : g.matchesIcon e f s = true) : g.enabled = true := by
  unfold IconGroup.matchesIcon at h
  by_cases hg : g.enabled = false
  · simp [hg] at h
  · simpa using hg

theorem initGroupsDict_key_aux (k : String) :
    ∀ (gs : List IconGroup) (acc : List (String × List DesktopIcon)),
      (∃ kv ∈ gs.foldl
          (fun acc g =>
            if g.enabled then
              if acc.any (fun kv => kv.1 = g.name) then acc
              else acc ++ [(g.name, [])]
            else acc) acc, kv.1 = k) ↔
        (∃ kv ∈ acc, kv.1 = k) ∨ ∃ g ∈ gs, g.enabled = true ∧ g.name = k
  | [], acc => by simp
  | g :: gs, acc => by
    simp only [List.foldl_cons]
    by_cases hg : g.enabled
    · by_cases hany : acc.any (fun kv => kv.1 = g.name) = true
      · rw [if_pos hg, if_pos hany, initGroupsDict_key_aux k gs acc]
        simp only [List.any_eq_true, decide_eq_true_eq] at hany
        constructor
        · rintro (h | h)
          · exact Or.inl h
          · exact Or.inr ⟨_, by simp [h.choose_spec.1], h.choose_spec.2⟩
        · rintro (h | ⟨g', hg', he, hn⟩)
          · exact Or.inl h
          · rcases List.mem_cons.1 hg' with rfl | hg'
            · obtain ⟨kv, hkv, hkv1⟩ := hany
              exact Or.inl ⟨kv, hkv, hkv1.trans hn⟩
            · exact Or.inr ⟨g', hg', he, hn⟩
      · rw [if_pos hg, if_neg hany, initGroupsDict_key_aux k gs _]
        constructor
        · rintro (h | h)
          · rcases h with ⟨kv, hkv, rfl⟩
            rcases List.mem_append.1 hkv with hkv | hkv
            · exact Or.inl ⟨kv, hkv, rfl⟩
            · simp at hkv
              exact Or.inr ⟨g, by simp, hg, by simp [hkv]⟩
          · exact Or.inr (by
              obtain ⟨g', hg', he, hn⟩ := h
              exact ⟨g', by simp [hg'], he, hn⟩)
        · rintro (⟨kv, hkv, rfl⟩ | ⟨g', hg', he, hn⟩)
          · exact Or.inl ⟨kv, by simp [hkv], rfl⟩
          · rcases List.mem_cons.1 hg' with rfl | hg'
            · exact Or.inl ⟨(g'.name, []), by simp, hn⟩
            · exact Or.inr ⟨g', hg', he, hn⟩
    · rw [if_neg hg, initGroupsDict_key_aux k gs acc]
      constructor
      · rintro (h | h)
        · exact Or.inl h
        · exact Or.inr (by
            obtain ⟨g', hg', he, hn⟩ := h
            exact ⟨g', by simp [hg'], he, hn⟩)
      · rintro (h | ⟨g', hg', he, hn⟩)
        · exact Or.inl h
        · rcases List.mem_cons.1 hg' with rfl | hg'
          · exact absurd he (by simpa using hg)
          · exact Or.inr ⟨g', hg', he, hn⟩

theorem initGroupsDict_key (groups : List IconGroup) (k : String) :
    (∃ kv ∈ initGroupsDict groups, kv.1 = k) ↔
      ∃ g ∈ groups, g.enabled = true ∧ g.name = k := by
  have := initGroupsDict_key_aux k groups []
  simpa [initGroupsDict] using this

theorem initGroupsDict_keys_aux :
    ∀ (gs : List IconGroup) (acc : List (String × List DesktopIcon)),
      acc.Pairwise (fun a b => a.1 ≠ b.1) →
      (gs.foldl
          (fun acc g =>
            if g.enabled then
              if acc.any (fun kv => kv.1 = g.name) then acc
              else acc ++ [(g.name, [])]
            else acc) acc).Pairwise (fun a b => a.1 ≠ b.1)
  | [], _, h => h
  | g :: gs, acc, h => by
    simp only [List.foldl_cons]
    by_cases hg : g.enabled
    · by_cases hany : acc.any (fun kv => kv.1 = g.name) = true
      · rw [if_pos hg, if_pos hany]
        exact initGroupsDict_keys_aux gs acc h
      · rw [if_pos hg, if_neg hany]
        refine initGroupsDict_keys_aux gs _ ?_
        rw [List.pairwise_append]
        refine ⟨h, by simp, ?_⟩
        intro a ha b hb
        simp only [List.mem_singleton] at hb
        subst hb
        intro hcontra
        apply hany
        simp only [List.any_eq_true, decide_eq_true_eq]
        exact ⟨a, ha, hcontra⟩
    · rw [if_neg hg]
      exact initGroupsDict_keys_aux gs acc h

theorem initGroupsDict_keys (groups : List IconGroup) :
    (initGroupsDict groups).Pairwise (fun a b => a.1 ≠ b.1) :=
  initGroupsDict_keys_aux groups [] List.Pairwise.nil

theorem initGroupsDict_vals_aux :
    ∀ (gs : List IconGroup) (acc : List (String × List DesktopIcon)),
      (∀ kv ∈ acc, kv.2 = []) →
      ∀ kv ∈ gs.foldl
          (fun acc g =>
            if g.enabled then
              if acc.any (fun kv => kv.1 = g.name) then acc
              else acc ++ [(g.name, [])]
            else acc) acc, kv.2 = []
  | [], _, h => h
  | g :: gs, acc, h => by
    simp only [List.foldl_cons]
    by_cases hg : g.enabled
    · by_cases hany : acc.any (fun kv => kv.1 = g.name) = true
      · rw [if_pos hg, if_pos hany]
        exact initGroupsDict_vals_aux gs acc h
      · rw [if_pos hg, if_neg hany]
        refine initGroupsDict_vals_aux gs _ ?_
        intro kv hkv
        rcases List.mem_append.1 hkv with hkv | hkv
        · exact h kv hkv
        · simp at hkv
          simp [hkv]
    · rw [if_neg hg]
      exact initGroupsDict_vals_aux gs acc h

theorem initGroupsDict_vals (groups : List IconGroup) :
    ∀ kv ∈ initGroupsDict groups, kv.2 = [] :=
  initGroupsDict_vals_aux groups [] (by simp)

theorem assocAppend_key_mem (res : List (String × List DesktopIcon))
    (k k' : String) (icon : DesktopIcon) :
    (∃ kv ∈ assocAppend res k icon, kv.1 = k') ↔ ∃ kv ∈ res, kv.1 = k' := by
  unfold assocAppend
  constructor
  · rintro ⟨kv, hkv, rfl⟩
    rcases List.mem_map.1 hkv with ⟨kv₀, hkv₀, rfl⟩
    refine ⟨kv₀, hkv₀, ?_⟩
    by_cases h : kv₀.1 = k <;> simp [h]
  · rintro ⟨kv, hkv, rfl⟩
    by_cases h : kv.1 = k
    · exact ⟨(kv.1, kv.2 ++ [icon]), List.mem_map.2 ⟨kv, hkv, by simp [h]⟩, rfl⟩
    · exact ⟨kv, List.mem_map.2 ⟨kv, hkv, by simp [h]⟩, rfl⟩

theorem assocAppend_keys (res : List (String × List DesktopIcon))
    (k : String) (icon : DesktopIcon)
    (h : res.Pairwise (fun a b => a.1 ≠ b.1)) :
    (assocAppend res k icon).Pairwise (fun a b => a.1 ≠ b.1) := by
  unfold assocAppend
  rw [List.pairwise_map]
  refine h.imp_of_mem ?_
  intro a b _ _ hab
  by_cases ha : a.1 = k <;> by_cases hb : b.1 = k <;> simp [ha, hb] at * <;>
    simp [ha, hb, hab]

theorem assocAppend_of_not_mem (res : List (String × List DesktopIcon))
    (k : String) (icon : DesktopIcon) (h : ∀ kv ∈ res, kv.1 ≠ k) :
    assocAppend res k icon = res := by
  unfold assocAppend
  have : ∀ kv ∈ res,
      (if kv.1 = k then (kv.1, kv.2 ++ [icon]) else kv) = id kv := by
    intro kv hkv
    simp [h kv hkv]
  rw [List.map_congr_left this, List.map_id]

theorem assocAppend_flatten :
    ∀ (res : List (String × List DesktopIcon)) (k : String)
      (icon : DesktopIcon),
      (∃ kv ∈ res, kv.1 = k) → res.Pairwise (fun a b => a.1 ≠ b.1) →
      ((assocAppend res k icon).flatMap (fun kv => kv.2)).Perm
        (res.flatMap (fun kv => kv.2) ++ [icon])
  | [], k, icon, hmem, _ => by simp at hmem
  | kv₀ :: rest, k, icon, hmem, hpair => by
    rw [List.pairwise_cons] at hpair
    by_cases h0 : kv₀.1 = k
    · have hrest : assocAppend rest k icon = rest :=
        assocAppend_of_not_mem rest k icon
          (fun kv hkv => by
            intro hc
            exact (hpair.1 kv hkv) (h0.trans hc.symm))
      unfold assocAppend
      simp only [List.map_cons, if_pos h0]
      have : rest.map
          (fun kv => if kv.1 = k then (kv.1, kv.2 ++ [icon]) else kv) = rest := by
        unfold assocAppend at hrest
        exact hrest
      rw [this]
      simp only [List.flatMap_cons, List.append_assoc]
      exact List.Perm.append_left kv₀.2
        (@List.perm_append_comm _ [icon] (rest.flatMap (fun kv => kv.2)))
    · have hmem' : ∃ kv ∈ rest, kv.1 = k := by
        rcases hmem with ⟨kv, hkv, rfl⟩
        rcases List.mem_cons.1 hkv with rfl | hkv
        · exact absurd rfl h0
        · exact ⟨kv, hkv, rfl⟩
      unfold assocAppend
      simp only [List.map_cons, if_neg h0]
      simp only [List.flatMap_cons, List.append_assoc]
      refine List.Perm.append_left kv₀.2 ?_
      have := assocAppend_flatten rest k icon hmem' hpair.2
      unfold assocAppend at this
      simpa using this

theorem flatten_filter_nonempty :
    ∀ (res : List (String × List DesktopIcon)),
      ((res.filter (fun kv => !kv.2.isEmpty)).flatMap (fun kv => kv.2)) =
        res.flatMap (fun kv => kv.2)
  | [] => rfl
  | kv :: rest => by
    by_cases h : kv.2.isEmpty
    · have h2 : kv.2 = [] := by simpa [List.isEmpty_iff] using h
      simp [List.filter_cons, h, h2, flatten_filter_nonempty rest]
    · simp [List.filter_cons, h, flatten_filter_nonempty rest]

theorem classify_mem_keys (groups : List IconGroup) (e : String) (f s : Bool)
    (hcatch : ∃ g ∈ groups, g.enabled = true ∧ g.name = "其他") :
    ∃ g ∈ groups, g.enabled = true ∧ g.name = classify groups e f s := by
  unfold classify
  cases hfind : groups.find? (fun g => g.matchesIcon e f s) with
  | none => exact hcatch
  | some g =>
    have hp :=
      @List.find?_some IconGroup (fun g => g.matchesIcon e f s) g groups hfind
    exact ⟨g, List.mem_of_find?_eq_some hfind,
      matchesIcon_enabled (by simpa using hp), rfl⟩

theorem classify_fold_flatten (groups : List IconGroup)
    (hcatch : ∃ g ∈ groups, g.enabled = true ∧ g.name = "其他") :
    ∀ (icons : List DesktopIcon) (res : List (String × List DesktopIcon)),
      (∀ k', (∃ kv ∈ res, kv.1 = k') ↔
        ∃ g ∈ groups, g.enabled = true ∧ g.name = k') →
      res.Pairwise (fun a b => a.1 ≠ b.1) →
      ((icons.foldl
          (fun res icon =>
            assocAppend res
              (classify groups icon.extension icon.is_folder
                icon.is_system_icon) icon) res).flatMap
          (fun kv => kv.2)).Perm (res.flatMap (fun kv => kv.2) ++ icons)
  | [], res, _, _ => by simp
  | icon :: rest, res, hkeys, hpair => by
    simp only [List.foldl_cons]
    set gname := classify groups icon.extension icon.is_folder
      icon.is_system_icon with hgname
    have hmem : ∃ kv ∈ res, kv.1 = gname :=
      (hkeys gname).2 (classify_mem_keys groups _ _ _ hcatch)
    have ih := classify_fold_flatten groups hcatch rest
      (assocAppend res gname icon)
      (fun k' => (assocAppend_key_mem res gname k' icon).trans (hkeys k'))
      (assocAppend_keys res gname icon hpair)
    refine ih.trans ?_
    have hflat := assocAppend_flatten res gname icon hmem hpair
    refine (List.Perm.append_right rest hflat).trans ?_
    rw [List.append_assoc]
    simp

/-- C1 (amended): provided the group list contains an enabled catch-all
group named 其他, `classify_icons` returns no group with an empty icon list
and the concatenation of all returned lists is a permutation of the input
icons — every icon appears exactly once, none dropped or duplicated. -/
theorem classify_icons_partition (groups : List IconGroup)
    (icons : List DesktopIcon)
    (hcatch : ∃ g ∈ groups, g.enabled = true ∧ g.name = "其他") :
    (∀ kv ∈ classify_icons groups icons, kv.2 ≠ []) ∧
    ((classify_icons groups icons).flatMap (fun kv => kv.2)).Perm icons := by
  constructor
  · intro kv hkv
    unfold classify_icons at hkv
    simp only [List.mem_filter, Bool.not_eq_eq_eq_not, Bool.not_true] at hkv
    intro hc
    rcases hkv with ⟨-, hkv2⟩
    rw [hc] at hkv2
    simp at hkv2
  · unfold classify_icons
    rw [flatten_filter_nonempty]
    have := classify_fold_flatten groups hcatch icons (initGroupsDict groups)
      (initGroupsDict_key groups) (initGroupsDict_keys groups)
    refine this.trans ?_
    have hnil : (initGroupsDict groups).flatMap (fun kv => kv.2) = [] := by
      rw [List.flatMap_eq_nil_iff]
      exact initGroupsDict_vals groups
    simp [hnil]

/-- Witness for C1: the default-style group list containing the enabled
catch-all satisfies the hypothesis, and the partition property holds for a
one-icon input. -/
theorem classify_icons_partition_witness :
    (∀ kv ∈ classify_icons [gOther] [sampleIcon "A" false ".aa"], kv.2 ≠ []) ∧
    ((classify_icons [gOther] [sampleIcon "A" false ".aa"]).flatMap
        (fun kv => kv.2)).Perm [sampleIcon "A" false ".aa"] :=
  classify_icons_partition [gOther] [sampleIcon "A" false ".aa"] (by decide)

/-! Lemmas for preset application (C9). -/

theorem presets_find_mem {pid : String} {kv : String × Preset}
    (h : PRESETS.find? (fun kv => kv.1 = pid) = some kv) :
    kv ∈ PRESETS ∧ kv.1 = pid :=
  ⟨List.mem_of_find?_eq_some h, by
    have := @List.find?_some (String × Preset) (fun kv => kv.1 = pid) kv
      PRESETS h
    simpa using this⟩

theorem presets_dynamic_id {kv : String × Preset} (hmem : kv ∈ PRESETS)
    (hdyn : kv.2.dynamic = true) : kv.1 = "by_extension" := by
  simp only [PRESETS, List.mem_cons, List.not_mem_nil, or_false] at hmem
  rcases hmem with rfl | rfl | rfl | rfl <;> first | rfl | simp at hdyn

/-- C9: for every classifier group list and every preset identifier,
`apply_preset` either returns True with the classifier's group list wholly
replaced by the preset's full group list (a function of the preset alone,
independent of the previous groups), or returns False with the group list
exactly as it was — never a partially applied, cleared, or mixed list.
`exts` parameterizes the desktop scan of the dynamic preset. -/
theorem apply_preset_atomic (exts : List String) (groups : List IconGroup)
    (pid : String) :
    ((apply_preset exts groups pid).1 = true ∧
      (apply_preset exts groups pid).2 = preset_full_groups exts pid) ∨
    ((apply_preset exts groups pid).1 = false ∧
      (apply_preset exts groups pid).2 = groups) := by
  unfold apply_preset preset_full_groups
  cases hfind : PRESETS.find? (fun kv => kv.1 = pid) with
  | none => right; simp
  | some kv =>
    obtain ⟨hmem, hid⟩ := presets_find_mem hfind
    by_cases hdyn : kv.2.dynamic = true
    · have hbe : kv.1 = "by_extension" := presets_dynamic_id hmem hdyn
      have hpid : pid = "by_extension" := hid ▸ hbe
      left
      simp [hdyn, hpid]
    · left
      simp only [Bool.not_eq_true] at hdyn
      simp [hdyn]

/-! Lemmas for the placement invariant (C2, C10). -/

theorem pair_mem_colmajor {cc cr : Nat} {cols : List Nat} {f : Nat → List Nat}
    (h : (cc, cr) ∈ cols.flatMap (fun col => (f col).map (fun row => (col, row)))) :
    cc ∈ cols ∧ cr ∈ f cc := by
  rcases List.mem_flatMap.1 h with ⟨col, hcol, hcell⟩
  rcases List.mem_map.1 hcell with ⟨row, hrow, heq⟩
  have h1 : col = cc := congrArg Prod.fst heq
  have h2 : row = cr := congrArg Prod.snd heq
  subst h1; subst h2
  exact ⟨hcol, hrow⟩

theorem pair_mem_rowmajor {cc cr : Nat} {rows : List Nat} {f : Nat → List Nat}
    (h : (cc, cr) ∈ rows.flatMap (fun row => (f row).map (fun col => (col, row)))) :
    cr ∈ rows ∧ cc ∈ f cr := by
  rcases List.mem_flatMap.1 h with ⟨row, hrow, hcell⟩
  rcases List.mem_map.1 hcell with ⟨col, hcol, heq⟩
  have h1 : col = cc := congrArg Prod.fst heq
  have h2 : row = cr := congrArg Prod.snd heq
  subst h1; subst h2
  exact ⟨hrow, hcol⟩

theorem get_next_free_cell_some {occ : List (Nat × Nat)}
    {sc sr mc mr : Nat} {pv : Bool} {c : Nat × Nat}
    (hsc : sc ≤ mc) (hsr : sr ≤ mr)
    (h : get_next_free_cell occ sc sr mc mr pv = some c) :
    c ∉ occ ∧ c.1 < mc ∧ c.2 < mr := by
  unfold get_next_free_cell at h
  have hfree := List.find?_some h
  have hmem := List.mem_of_find?_eq_some h
  refine ⟨by simpa using hfree, ?_⟩
  rcases c with ⟨cc, cr⟩
  cases pv with
  | true =>
    rw [if_pos rfl] at hmem
    rcases List.mem_append.1 hmem with hm | hm
    · obtain ⟨hcol, hrow⟩ := pair_mem_colmajor hm
      rw [List.mem_range'_1] at hcol
      constructor
      · omega
      · split at hrow
        · rw [List.mem_range'_1] at hrow
          omega
        · rw [List.mem_range] at hrow
          omega
    · obtain ⟨hcol, hrow⟩ := pair_mem_colmajor hm
      rw [List.mem_range] at hcol
      rw [List.mem_range] at hrow
      omega
  | false =>
    rw [if_neg Bool.false_ne_true] at hmem
    rcases List.mem_append.1 hmem with hm | hm
    · obtain ⟨hrow, hcol⟩ := pair_mem_rowmajor hm
      rw [List.mem_range'_1] at hrow
      constructor
      · split at hcol
        · rw [List.mem_range'_1] at hcol
          omega
        · rw [List.mem_range] at hcol
          omega
      · omega
    · obtain ⟨hrow, hcol⟩ := pair_mem_rowmajor hm
      rw [List.mem_range] at hrow
      rw [List.mem_range] at hcol
      omega

theorem cellPos_inj {origin : Int × Int} {h_spacing v_spacing : Int}
    (hh : 0 < h_spacing) (hv : 0 < v_spacing) {c c' : Nat × Nat}
    (he : cellPos origin h_spacing v_spacing c =
      cellPos origin h_spacing v_spacing c') : c = c' := by
  unfold cellPos at he
  rw [Prod.mk.injEq] at he
  obtain ⟨h1, h2⟩ := he
  have h1' : (c.1 : Int) * h_spacing = (c'.1 : Int) * h_spacing := by omega
  have h2' : (c.2 : Int) * v_spacing = (c'.2 : Int) * v_spacing := by omega
  have e1 : (c.1 : Int) = (c'.1 : Int) :=
    mul_right_cancel₀ (ne_of_gt hh) h1'
  have e2 : (c.2 : Int) = (c'.2 : Int) :=
    mul_right_cancel₀ (ne_of_gt hv) h2'
  have : c.1 = c'.1 := by exact_mod_cast e1
  have : c.2 = c'.2 := by exact_mod_cast e2
  cases c; cases c'
  simp_all

theorem posInsert_mem {ps : List (String × (Int × Int))} {k : String}
    {v : Int × Int} {kv : String × (Int × Int)}
    (h : kv ∈ posInsert ps k v) : kv = (k, v) ∨ kv ∈ ps := by
  unfold posInsert at h
  split at h
  · rcases List.mem_map.1 h with ⟨kv₀, hkv₀, rfl⟩
    by_cases hk : kv₀.1 = k
    · simp [hk]
    · simp [hk, hkv₀]
  · rcases List.mem_append.1 h with h | h
    · exact Or.inr h
    · simp at h
      exact Or.inl h

theorem posInsert_pairwise {ps : List (String × (Int × Int))} {k : String}
    {v : Int × Int}
    (hpair : ps.Pairwise (fun a b => a.1 ≠ b.1 ∧ a.2 ≠ b.2))
    (hfresh : ∀ kv ∈ ps, kv.2 ≠ v) :
    (posInsert ps k v).Pairwise (fun a b => a.1 ≠ b.1 ∧ a.2 ≠ b.2) := by
  unfold posInsert
  split
  · rw [List.pairwise_map]
    refine hpair.imp_of_mem ?_
    intro a b ha hb hab
    by_cases h1 : a.1 = k <;> by_cases h2 : b.1 = k
    · exact absurd (h1.trans h2.symm) hab.1
    · simp only [if_pos h1, if_neg h2]
      exact ⟨hab.1, fun hc => (hfresh b hb) hc.symm⟩
    · simp only [if_neg h1, if_pos h2]
      exact ⟨hab.1, fun hc => (hfresh a ha) hc⟩
    · simp only [if_neg h1, if_neg h2]
      exact hab
  · rw [List.pairwise_append]
    refine ⟨hpair, by simp, ?_⟩
    intro a ha b hb
    simp only [List.mem_singleton] at hb
    subst hb
    rename_i hany
    simp only [List.any_eq_true, decide_eq_true_eq, not_exists] at hany
    constructor
    · intro hc
      exact hany a ⟨ha, hc⟩
    · exact hfresh a ha

theorem placeAt_inv {origin : Int × Int} {h_spacing v_spacing : Int}
    {mc mr : Nat} {st : PState} {icon : DesktopIcon} {c : Nat × Nat}
    (hh : 0 < h_spacing) (hv : 0 < v_spacing)
    (hc : c ∉ st.occupied) (hc1 : c.1 < mc) (hc2 : c.2 < mr)
    (hinv : StateInv origin h_spacing v_spacing mc mr st) :
    StateInv origin h_spacing v_spacing mc mr
      (placeAt origin h_spacing v_spacing icon c st) := by
  obtain ⟨hpair, hcell⟩ := hinv
  constructor
  · refine posInsert_pairwise hpair ?_
    intro kv hkv hcontra
    obtain ⟨c', hc', _, _, hval⟩ := hcell kv hkv
    have : c' = c := cellPos_inj hh hv (hval ▸ hcontra)
    exact hc (this ▸ hc')
  · intro kv hkv
    rcases posInsert_mem hkv with rfl | hkv'
    · exact ⟨c, by simp [placeAt], hc1, hc2, rfl⟩
    · obtain ⟨c', hc', hb1, hb2, hval⟩ := hcell kv hkv'
      exact ⟨c', List.mem_cons_of_mem _ hc', hb1, hb2, hval⟩

theorem stepV_inv {origin : Int × Int} {h_spacing v_spacing : Int}
    {mc mr : Nat} {fr : Bool} {gsc : Nat} {st : PState}
    {ix : Nat × DesktopIcon}
    (hh : 0 < h_spacing) (hv : 0 < v_spacing) (hmc : 0 < mc) (hmr : 0 < mr)
    (hgsc : gsc < mc)
    (hinv : StateInv origin h_spacing v_spacing mc mr st) :
    StateInv origin h_spacing v_spacing mc mr
      (stepV origin h_spacing v_spacing mc mr fr gsc st ix) := by
  simp only [stepV]
  have hrow : ix.1 % mr < mr := Nat.mod_lt _ hmr
  have hcol : (if fr then gsc - ix.1 / mr
      else min (mc - 1) (gsc + ix.1 / mr)) < mc := by
    split
    · exact lt_of_le_of_lt (Nat.sub_le _ _) hgsc
    · have := min_le_left (mc - 1) (gsc + ix.1 / mr)
      omega
  by_cases hfree :
      ((if fr then gsc - ix.1 / mr else min (mc - 1) (gsc + ix.1 / mr)),
        ix.1 % mr) ∈ st.occupied
  · rw [if_neg (by simpa using hfree)]
    cases hscan : get_next_free_cell st.occupied
        (if fr then gsc - ix.1 / mr else min (mc - 1) (gsc + ix.1 / mr))
        (ix.1 % mr) mc mr true with
    | some cf =>
      obtain ⟨hf, hc1, hc2⟩ :=
        get_next_free_cell_some (le_of_lt hcol) (le_of_lt hrow) hscan
      exact placeAt_inv hh hv hf hc1 hc2 hinv
    | none => exact hinv
  · rw [if_pos (by simpa using hfree)]
    exact placeAt_inv hh hv hfree hcol hrow hinv

theorem stepH_inv {origin : Int × Int} {h_spacing v_spacing : Int}
    {mc mr : Nat} {fr : Bool} {gsr : Nat} {st : PState}
    {ix : Nat × DesktopIcon}
    (hh : 0 < h_spacing) (hv : 0 < v_spacing) (hmc : 0 < mc) (hmr : 0 < mr)
    (hinv : StateInv origin h_spacing v_spacing mc mr st) :
    StateInv origin h_spacing v_spacing mc mr
      (stepH origin h_spacing v_spacing mc mr fr gsr st ix) := by
  simp only [stepH]
  have hrow : min (mr - 1) (gsr + ix.1 / mc) < mr := by
    have := min_le_left (mr - 1) (gsr + ix.1 / mc)
    omega
  have hcol : (if fr then mc - 1 - ix.1 % mc else ix.1 % mc) < mc := by
    have : ix.1 % mc < mc := Nat.mod_lt _ hmc
    split <;> omega
  by_cases hfree :
      ((if fr then mc - 1 - ix.1 % mc else ix.1 % mc),
        min (mr - 1) (gsr + ix.1 / mc)) ∈ st.occupied
  · rw [if_neg (by simpa using hfree)]
    cases hscan : get_next_free_cell st.occupied
        (if fr then mc - 1 - ix.1 % mc else ix.1 % mc)
        (min (mr - 1) (gsr + ix.1 / mc)) mc mr false with
    | some cf =>
      obtain ⟨hf, hc1, hc2⟩ :=
        get_next_free_cell_some (le_of_lt hcol) (le_of_lt hrow) hscan
      exact placeAt_inv hh hv hf hc1 hc2 hinv
    | none => exact hinv
  · rw [if_pos (by simpa using hfree)]
    exact placeAt_inv hh hv hfree hcol hrow hinv

theorem foldl_preserve {α β : Type} {P : α → Prop} {f : α → β → α}
    (hf : ∀ a b, P a → P (f a b)) :
    ∀ (l : List β) (a : α), P a → P (l.foldl f a)
  | [], _, h => h
  | _ :: xs, a, h => foldl_preserve hf xs _ (hf a _ h)

theorem stateInv_empty (origin : Int × Int) (h_spacing v_spacing : Int)
    (mc mr : Nat) :
    StateInv origin h_spacing v_spacing mc mr ⟨[], []⟩ :=
  ⟨List.Pairwise.nil, by simp⟩

theorem runVertical_inv {fs : FileSystem} {so : SortOrder}
    {origin : Int × Int} {h_spacing v_spacing : Int} {mc mr : Nat}
    {fr : Bool} {units : List (String × List (Int × DesktopIcon))}
    (hh : 0 < h_spacing) (hv : 0 < v_spacing) (hmc : 0 < mc) (hmr : 0 < mr) :
    StateInv origin h_spacing v_spacing mc mr
      (runVertical fs so origin h_spacing v_spacing mc mr fr units) := by
  unfold runVertical
  have main :
      ∀ (gl : List (String × List (Int × DesktopIcon)))
        (acc : PState × Nat),
        StateInv origin h_spacing v_spacing mc mr acc.1 → acc.2 < mc →
        StateInv origin h_spacing v_spacing mc mr
          (gl.foldl
            (fun (acc : PState × Nat) unit =>
              let sorted_icons := sort_icons fs so unit.2
              let st := sorted_icons.enum.foldl
                (stepV origin h_spacing v_spacing mc mr fr acc.2) acc.1
              let cols_used :=
                max 1 ((sorted_icons.length + mr - 1) / mr)
              let next_col :=
                if fr then acc.2 - cols_used
                else min (mc - 1) (acc.2 + cols_used)
              (st, next_col)) acc).1 ∧
        (gl.foldl
            (fun (acc : PState × Nat) unit =>
              let sorted_icons := sort_icons fs so unit.2
              let st := sorted_icons.enum.foldl
                (stepV origin h_spacing v_spacing mc mr fr acc.2) acc.1
              let cols_used :=
                max 1 ((sorted_icons.length + mr - 1) / mr)
              let next_col :=
                if fr then acc.2 - cols_used
                else min (mc - 1) (acc.2 + cols_used)
              (st, next_col)) acc).2 < mc := by
    intro gl
    induction gl with
    | nil => intro acc h1 h2; exact ⟨h1, h2⟩
    | cons u us ih =>
      intro acc h1 h2
      simp only [List.foldl_cons]
      refine ih _ ?_ ?_
      · exact foldl_preserve
          (fun a b ha => stepV_inv hh hv hmc hmr h2 ha) _ _ h1
      · dsimp only
        split
        · exact lt_of_le_of_lt (Nat.sub_le _ _) h2
        · have := min_le_left (mc - 1)
            (acc.2 + max 1 (((sort_icons fs so u.2).length + mr - 1) / mr))
          omega
  refine (main _ _ (stateInv_empty _ _ _ _ _) ?_).1
  dsimp only
  split <;> omega

theorem runHorizontal_inv {fs : FileSystem} {so : SortOrder}
    {origin : Int × Int} {h_spacing v_spacing : Int} {mc mr : Nat}
    {fr : Bool} {units : List (String × List (Int × DesktopIcon))}
    (hh : 0 < h_spacing) (hv : 0 < v_spacing) (hmc : 0 < mc) (hmr : 0 < mr) :
    StateInv origin h_spacing v_spacing mc mr
      (runHorizontal fs so origin h_spacing v_spacing mc mr fr units) := by
  unfold runHorizontal
  have main :
      ∀ (gl : List (String × List (Int × DesktopIcon)))
        (acc : PState × Nat),
        StateInv origin h_spacing v_spacing mc mr acc.1 →
        StateInv origin h_spacing v_spacing mc mr
          (gl.foldl
            (fun (acc : PState × Nat) unit =>
              let sorted_icons := sort_icons fs so unit.2
              let st := sorted_icons.enum.foldl
                (stepH origin h_spacing v_spacing mc mr fr acc.2) acc.1
              let rows_used :=
                max 1 ((sorted_icons.length + mc - 1) / mc)
              let next_row := min (mr - 1) (acc.2 + rows_used)
              (st, next_row)) acc).1 := by
    intro gl
    induction gl with
    | nil => intro acc h1; exact h1
    | cons u us ih =>
      intro acc h1
      simp only [List.foldl_cons]
      refine ih _ ?_
      exact foldl_preserve
        (fun a b ha => stepH_inv hh hv hmc hmr ha) _ _ h1
  exact main _ _ (stateInv_empty _ _ _ _ _)

theorem grid_max_rows_pos (settings : LayoutSettings) (monitor : MonitorInfo)
    (v_spacing : Int) : 0 < grid_max_rows settings monitor v_spacing := by
  unfold grid_max_rows
  have : (1 : Int) ≤ max 1 ((monitor.work_area.bottom - monitor.work_area.top -
      settings.margin_top - settings.margin_bottom).fdiv v_spacing) :=
    le_max_left _ _
  omega

theorem grid_max_cols_pos (settings : LayoutSettings) (monitor : MonitorInfo)
    (h_spacing : Int) : 0 < grid_max_cols settings monitor h_spacing := by
  unfold grid_max_cols
  have : (1 : Int) ≤ max 1 ((monitor.work_area.right - monitor.work_area.left -
      settings.margin_left - settings.margin_right).fdiv h_spacing) :=
    le_max_left _ _
  omega

theorem calculate_positions_inv (fs : FileSystem) (settings : LayoutSettings)
    (classified : List (String × List DesktopIcon)) (groups : List IconGroup)
    (monitor : MonitorInfo) (h_spacing v_spacing : Int)
    (grid_origin : Option (Int × Int))
    (hh : 0 < h_spacing) (hv : 0 < v_spacing) :
    (calculate_positions fs settings classified groups monitor
        (h_spacing, v_spacing) grid_origin).Pairwise
      (fun a b => a.1 ≠ b.1 ∧ a.2 ≠ b.2) ∧
    ∀ kv ∈ calculate_positions fs settings classified groups monitor
        (h_spacing, v_spacing) grid_origin,
      ∃ c : Nat × Nat, c.1 < grid_max_cols settings monitor h_spacing ∧
        c.2 < grid_max_rows settings monitor v_spacing ∧
        kv.2 = cellPos (origin_of settings monitor grid_origin)
          h_spacing v_spacing c := by
  unfold calculate_positions
  dsimp only
  by_cases hact : (active_groups classified groups).isEmpty
  · rw [if_pos hact]
    exact ⟨List.Pairwise.nil, by simp⟩
  · rw [if_neg hact]
    have hmc := grid_max_cols_pos settings monitor h_spacing
    have hmr := grid_max_rows_pos settings monitor v_spacing
    split
    · have hinv := @runVertical_inv fs settings.sort_order
        (origin_of settings monitor grid_origin) h_spacing v_spacing _ _
        settings.start_from_right
        (build_merged (active_groups classified groups)) hh hv hmc hmr
      exact ⟨hinv.1, fun kv hkv => by
        obtain ⟨c, _, hc1, hc2, hval⟩ := hinv.2 kv hkv
        exact ⟨c, hc1, hc2, hval⟩⟩
    · have hinv := @runHorizontal_inv fs settings.sort_order
        (origin_of settings monitor grid_origin) h_spacing v_spacing _ _
        settings.start_from_right
        (build_merged (active_groups classified groups)) hh hv hmc hmr
      exact ⟨hinv.1, fun kv hkv => by
        obtain ⟨c, _, hc1, hc2, hval⟩ := hinv.2 kv hkv
        exact ⟨c, hc1, hc2, hval⟩⟩

/-- C2: when all icon names are distinct and the spacings are positive, no
two entries of the mapping returned by `calculate_positions` have the same
(x, y) value — equivalently no two placed icons share a (col, row) cell
(each value renders a distinct occupied cell).  This holds whether or not
the grid saturates: dropped icons simply get no entry. -/
theorem calculate_positions_values_distinct
    (fs : FileSystem) (settings : LayoutSettings)
    (classified : List (String × List DesktopIcon)) (groups : List IconGroup)
    (monitor : MonitorInfo) (h_spacing v_spacing : Int)
    (grid_origin : Option (Int × Int))
    (hnames : ((classified.flatMap (fun kv => kv.2)).map
      (fun i => i.name)).Nodup)
    (hh : 0 < h_spacing) (hv : 0 < v_spacing) :
    (calculate_positions fs settings classified groups monitor
        (h_spacing, v_spacing) grid_origin).Pairwise
      (fun a b => a.2 ≠ b.2) :=
  ((calculate_positions_inv fs settings classified groups monitor h_spacing
      v_spacing grid_origin hh hv).1).imp (fun h => h.2)

/-- Witness for C2 at the worked example input. -/
theorem calculate_positions_values_distinct_witness :
    (calculate_positions fs0 {} classifiedExample [gFolders, gDocs] mon2x4
        (100, 50) (some (0, 0))).Pairwise (fun a b => a.2 ≠ b.2) :=
  calculate_positions_values_distinct fs0 {} classifiedExample
    [gFolders, gDocs] mon2x4 100 50 (some (0, 0)) (by decide) (by decide)
    (by decide)

/-- C10: with positive spacings, every value of the mapping returned by
`calculate_positions` lies inside the grid rectangle: between the origin
and origin + (maxCols-1, maxRows-1) * spacing componentwise — preferred
cells are clamped and the collision scan only visits in-grid cells. -/
theorem calculate_positions_in_grid
    (fs : FileSystem) (settings : LayoutSettings)
    (classified : List (String × List DesktopIcon)) (groups : List IconGroup)
    (monitor : MonitorInfo) (h_spacing v_spacing : Int)
    (grid_origin : Option (Int × Int))
    (hh : 0 < h_spacing) (hv : 0 < v_spacing) :
    ∀ kv ∈ calculate_positions fs settings classified groups monitor
        (h_spacing, v_spacing) grid_origin,
      (origin_of settings monitor grid_origin).1 ≤ kv.2.1 ∧
      kv.2.1 ≤ (origin_of settings monitor grid_origin).1 +
        ((grid_max_cols settings monitor h_spacing : Int) - 1) * h_spacing ∧
      (origin_of settings monitor grid_origin).2 ≤ kv.2.2 ∧
      kv.2.2 ≤ (origin_of settings monitor grid_origin).2 +
        ((grid_max_rows settings monitor v_spacing : Int) - 1) * v_spacing := by
  intro kv hkv
  obtain ⟨c, hc1, hc2, hval⟩ :=
    (calculate_positions_inv fs settings classified groups monitor h_spacing
      v_spacing grid_origin hh hv).2 kv hkv
  rw [hval]
  unfold cellPos
  have hcast1 : (c.1 : Int) ≤ (grid_max_cols settings monitor h_spacing : Int) - 1 := by
    have : (c.1 : Int) < (grid_max_cols settings monitor h_spacing : Int) := by
      exact_mod_cast hc1
    omega
  have hcast2 : (c.2 : Int) ≤ (grid_max_rows settings monitor v_spacing : Int) - 1 := by
    have : (c.2 : Int) < (grid_max_rows settings monitor v_spacing : Int) := by
      exact_mod_cast hc2
    omega
  refine ⟨le_add_of_nonneg_right (mul_nonneg (Int.natCast_nonneg c.1) hh.le),
    add_le_add_left (mul_le_mul_of_nonneg_right hcast1 hh.le) _,
    le_add_of_nonneg_right (mul_nonneg (Int.natCast_nonneg c.2) hv.le),
    add_le_add_left (mul_le_mul_of_nonneg_right hcast2 hv.le) _⟩

/-! Lemmas for merge-unit placement (C6). -/

theorem cellOf_inj {R : Nat} {i j : Nat} (h : cellOf R i = cellOf R j) :
    i = j := by
  unfold cellOf at h
  rw [Prod.mk.injEq] at h
  obtain ⟨h1, h2⟩ := h
  calc i = R * (i / R) + i % R := (Nat.div_add_mod _ _).symm
    _ = R * (j / R) + j % R := by rw [h1, h2]
    _ = j := Nat.div_add_mod _ _

theorem posInsert_fresh {ps : List (String × (Int × Int))} {k : String}
    {v : Int × Int} (h : ∀ kv ∈ ps, kv.1 ≠ k) :
    posInsert ps k v = ps ++ [(k, v)] := by
  unfold posInsert
  rw [if_neg]
  simp only [List.any_eq_true, decide_eq_true_eq, not_exists]
  rintro kv ⟨hkv, he⟩
  exact h kv hkv he

theorem sort_icons_asc (fs : FileSystem) (so : SortOrder)
    (l : List (Int × DesktopIcon)) (hdesc : so.isDesc = false) :
    sort_icons fs so l =
      (stableSort (fun a b => keyLe (sortKey fs so a) (sortKey fs so b))
        l).map (fun p => p.2) := by
  unfold sort_icons sort_icons_tagged
  rw [if_neg (by simp [hdesc])]

theorem sort_icons_perm_asc (fs : FileSystem) (so : SortOrder)
    (l : List (Int × DesktopIcon)) (hdesc : so.isDesc = false) :
    (sort_icons fs so l).Perm (l.map (fun p => p.2)) := by
  rw [sort_icons_asc fs so l hdesc]
  exact (stableSort_perm _ l).map _

theorem placeUnitV_block {origin : Int × Int} {h_spacing v_spacing : Int}
    {mc mr : Nat} (hmc : 0 < mc) (hmr : 0 < mr) :
    ∀ (l : List DesktopIcon) (k : Nat) (pos : List (String × (Int × Int)))
      (occ : List (Nat × Nat)),
      k + l.length ≤ mr * mc →
      (∀ c : Nat × Nat, c ∈ occ ↔ ∃ i, i < k ∧ c = cellOf mr i) →
      (l.map (fun i => i.name)).Nodup →
      (∀ ic ∈ l, ∀ kv ∈ pos, kv.1 ≠ ic.name) →
      ∃ occ' : List (Nat × Nat),
        (List.enumFrom k l).foldl
            (stepV origin h_spacing v_spacing mc mr false 0) ⟨pos, occ⟩ =
          ⟨pos ++ (List.enumFrom k l).map
            (fun p => (p.2.name,
              cellPos origin h_spacing v_spacing (cellOf mr p.1))), occ'⟩ ∧
        ∀ c : Nat × Nat, c ∈ occ' ↔ ∃ i, i < k + l.length ∧ c = cellOf mr i
  | [], k, pos, occ, _, hocc, _, _ => by
    refine ⟨occ, by simp [List.enumFrom], ?_⟩
    simpa using hocc
  | icon :: tl, k, pos, occ, hcap, hocc, hnodup, hfresh => by
    have hklt : k < mr * mc := by
      simp only [List.length_cons] at hcap
      omega
    have hdiv : k / mr < mc := by
      rw [Nat.div_lt_iff_lt_mul hmr]
      rw [Nat.mul_comm] at hklt
      exact hklt
    have hkcell : cellOf mr k ∉ occ := by
      rw [hocc]
      rintro ⟨i, hi, he⟩
      have : k = i := cellOf_inj he
      omega
    have hposfresh : ∀ kv ∈ pos, kv.1 ≠ icon.name :=
      fun kv hkv => hfresh icon (by simp) kv hkv
    have hstep : stepV origin h_spacing v_spacing mc mr false 0
        ⟨pos, occ⟩ (k, icon) =
        ⟨pos ++ [(icon.name,
            cellPos origin h_spacing v_spacing (cellOf mr k))],
          cellOf mr k :: occ⟩ := by
      simp only [stepV]
      rw [if_neg Bool.false_ne_true]
      rw [Nat.zero_add]
      rw [Nat.min_eq_right (by omega : k / mr ≤ mc - 1)]
      rw [if_pos (by simpa using hkcell)]
      unfold placeAt
      rw [posInsert_fresh hposfresh]
      rfl
    have hfresh' : ∀ ic ∈ tl, ∀ kv ∈ pos ++
        [(icon.name, cellPos origin h_spacing v_spacing (cellOf mr k))],
        kv.1 ≠ ic.name := by
      intro ic hic kv hkv
      rcases List.mem_append.1 hkv with hkv | hkv
      · exact hfresh ic (by simp [hic]) kv hkv
      · simp only [List.mem_singleton] at hkv
        subst hkv
        simp only []
        rw [List.map_cons, List.nodup_cons] at hnodup
        intro hc
        exact hnodup.1 (hc ▸ List.mem_map.2 ⟨ic, hic, rfl⟩)
    have hocc' : ∀ c : Nat × Nat, c ∈ cellOf mr k :: occ ↔
        ∃ i, i < k + 1 ∧ c = cellOf mr i := by
      intro c
      rw [List.mem_cons, hocc]
      constructor
      · rintro (rfl | ⟨i, hi, rfl⟩)
        · exact ⟨k, by omega, rfl⟩
        · exact ⟨i, by omega, rfl⟩
      · rintro ⟨i, hi, rfl⟩
        by_cases hik : i = k
        · subst hik
          exact Or.inl rfl
        · exact Or.inr ⟨i, by omega, rfl⟩
    obtain ⟨occ', heq, hocc''⟩ := placeUnitV_block hmc hmr tl (k + 1)
      (pos ++ [(icon.name, cellPos origin h_spacing v_spacing (cellOf mr k))])
      (cellOf mr k :: occ)
      (by simp only [List.length_cons] at hcap; omega) hocc'
      (by rw [List.map_cons, List.nodup_cons] at hnodup; exact hnodup.2)
      hfresh'
    refine ⟨occ', ?_, ?_⟩
    · show (List.enumFrom k (icon :: tl)).foldl
          (stepV origin h_spacing v_spacing mc mr false 0) ⟨pos, occ⟩ = _
      rw [List.enumFrom]
      rw [List.foldl_cons, hstep, heq]
      simp [List.append_assoc]
    · intro c
      rw [hocc'']
      constructor
      · rintro ⟨i, hi, rfl⟩
        exact ⟨i, by simp only [List.length_cons]; omega, rfl⟩
      · rintro ⟨i, hi, rfl⟩
        simp only [List.length_cons] at hi
        exact ⟨i, by omega, rfl⟩

/-- C6: two groups sharing the non-empty merge tag `m` collapse into a
single placement unit containing the union of their icons tagged with each
group's own priority; inside the unit the icons are sorted by that original
priority first (the unit's sorted list is the g1 block followed by the g2
block when g1.priority < g2.priority, never interleaved as one priority);
and, in a vertical left-to-right layout with enough free cells, the unit
occupies one contiguous block of cells: the i-th sorted icon sits in cell
(i / maxRows, i % maxRows). -/
theorem merge_group_unit
    (fs : FileSystem) (settings : LayoutSettings) (g1 g2 : IconGroup)
    (icons1 icons2 : List DesktopIcon) (monitor : MonitorInfo)
    (h_spacing v_spacing : Int) (grid_origin : Option (Int × Int)) (m : String)
    (hm : m ≠ "") (hg1 : g1.merge_group = m) (hg2 : g2.merge_group = m)
    (hprio : g1.priority < g2.priority) (hne : g1.name ≠ g2.name)
    (h1 : icons1 ≠ []) (h2 : icons2 ≠ [])
    (hnames : ((icons1 ++ icons2).map (fun i => i.name)).Nodup)
    (hdir : settings.direction = .vertical)
    (hfr : settings.start_from_right = false)
    (hdesc : settings.sort_order.isDesc = false)
    (hcap : icons1.length + icons2.length ≤
      grid_max_rows settings monitor v_spacing *
      grid_max_cols settings monitor h_spacing) :
    build_merged (active_groups [(g1.name, icons1), (g2.name, icons2)]
        [g1, g2]) =
      [(m, icons1.map (fun i => (g1.priority, i)) ++
          icons2.map (fun i => (g2.priority, i)))] ∧
    sort_icons fs settings.sort_order
        (icons1.map (fun i => (g1.priority, i)) ++
         icons2.map (fun i => (g2.priority, i))) =
      sort_icons fs settings.sort_order
        (icons1.map (fun i => (g1.priority, i))) ++
      sort_icons fs settings.sort_order
        (icons2.map (fun i => (g2.priority, i))) ∧
    calculate_positions fs settings [(g1.name, icons1), (g2.name, icons2)]
        [g1, g2] monitor (h_spacing, v_spacing) grid_origin =
      (sort_icons fs settings.sort_order
          (icons1.map (fun i => (g1.priority, i)) ++
           icons2.map (fun i => (g2.priority, i)))).enum.map
        (fun p => (p.2.name,
          cellPos (origin_of settings monitor grid_origin) h_spacing v_spacing
            (cellOf (grid_max_rows settings monitor v_spacing) p.1))) := by
  have hfind1 : List.find? (fun kv => kv.1 = g1.name)
      [(g1.name, icons1), (g2.name, icons2)] = some (g1.name, icons1) :=
    List.find?_cons_of_pos _ (by simp)
  have hfind2 : List.find? (fun kv => kv.1 = g2.name)
      [(g1.name, icons1), (g2.name, icons2)] = some (g2.name, icons2) := by
    rw [List.find?_cons_of_neg _ (by simp [hne]),
      List.find?_cons_of_pos _ (by simp)]
  have hactive : active_groups [(g1.name, icons1), (g2.name, icons2)]
      [g1, g2] = [(g1, icons1), (g2, icons2)] := by
    unfold active_groups lookupAssoc
    rw [List.foldl_cons]
    rw [hfind1]
    simp only [Option.map_some']
    rw [if_neg (by simp [h1])]
    rw [List.foldl_cons]
    rw [hfind2]
    simp only [Option.map_some']
    rw [if_neg (by simp [h2])]
    simp
  have hmerged : build_merged [(g1, icons1), (g2, icons2)] =
      [(m, icons1.map (fun i => (g1.priority, i)) ++
          icons2.map (fun i => (g2.priority, i)))] := by
    simp [build_merged, hg1, hg2, hm]
  have hsplit : sort_icons fs settings.sort_order
      (icons1.map (fun i => (g1.priority, i)) ++
       icons2.map (fun i => (g2.priority, i))) =
      sort_icons fs settings.sort_order
        (icons1.map (fun i => (g1.priority, i))) ++
      sort_icons fs settings.sort_order
        (icons2.map (fun i => (g2.priority, i))) := by
    rw [sort_icons_asc _ _ _ hdesc, sort_icons_asc _ _ _ hdesc,
      sort_icons_asc _ _ _ hdesc]
    rw [stableSort_append, List.map_append]
    intro a ha b hb
    rcases List.mem_map.1 ha with ⟨i, _, rfl⟩
    rcases List.mem_map.1 hb with ⟨j, _, rfl⟩
    simp only [keyLe, sortKey]
    rw [Bool.or_eq_true]
    left
    simpa using hprio
  refine ⟨hactive ▸ hmerged, hsplit, ?_⟩
  have hmc := grid_max_cols_pos settings monitor h_spacing
  have hmr := grid_max_rows_pos settings monitor v_spacing
  unfold calculate_positions
  dsimp only
  rw [hactive, hmerged]
  rw [if_neg (by simp)]
  rw [if_pos hdir, hfr]
  unfold runVertical
  rw [if_neg Bool.false_ne_true, if_neg Bool.false_ne_true]
  dsimp only
  rw [List.foldl_cons, List.foldl_nil]
  dsimp only
  have hlen : (sort_icons fs settings.sort_order
      (icons1.map (fun i => (g1.priority, i)) ++
       icons2.map (fun i => (g2.priority, i)))).length =
      icons1.length + icons2.length := by
    have := (sort_icons_perm_asc fs settings.sort_order
      (icons1.map (fun i => (g1.priority, i)) ++
       icons2.map (fun i => (g2.priority, i))) hdesc).length_eq
    simpa using this
  have hnodup : ((sort_icons fs settings.sort_order
      (icons1.map (fun i => (g1.priority, i)) ++
       icons2.map (fun i => (g2.priority, i)))).map
        (fun i => i.name)).Nodup := by
    have hp := (sort_icons_perm_asc fs settings.sort_order
      (icons1.map (fun i => (g1.priority, i)) ++
       icons2.map (fun i => (g2.priority, i))) hdesc).map
        (fun i => i.name)
    refine hp.nodup_iff.2 ?_
    simpa [List.map_map, List.map_append, Function.comp] using hnames
  obtain ⟨occ', heq, -⟩ := @placeUnitV_block
    (origin_of settings monitor grid_origin) h_spacing v_spacing _ _ hmc hmr
    (sort_icons fs settings.sort_order
      (icons1.map (fun i => (g1.priority, i)) ++
       icons2.map (fun i => (g2.priority, i)))) 0 [] []
    (by rw [hlen]; omega) (by simp) hnodup (by simp)
  show ((sort_icons fs settings.sort_order
      (icons1.map (fun i => (g1.priority, i)) ++
       icons2.map (fun i => (g2.priority, i)))).enum.foldl
        (stepV (origin_of settings monitor grid_origin) h_spacing v_spacing
          (grid_max_cols settings monitor h_spacing)
          (grid_max_rows settings monitor v_spacing) false 0)
        ⟨[], []⟩).positions = _
  rw [show (List.enum (sort_icons fs settings.sort_order
      (icons1.map (fun i => (g1.priority, i)) ++
       icons2.map (fun i => (g2.priority, i))))) =
      List.enumFrom 0 (sort_icons fs settings.sort_order
        (icons1.map (fun i => (g1.priority, i)) ++
         icons2.map (fun i => (g2.priority, i)))) from rfl]
  rw [heq]
  simp

/-- Witness for C6: groups of priorities 2 and 5 sharing merge tag M, one
icon each, on the 2x4 grid. -/
theorem merge_group_unit_witness :
    build_merged (active_groups
        [(gM2.name, [sampleIcon "bb" false ".aa"]),
         (gM5.name, [sampleIcon "aa" false ".bb"])] [gM2, gM5]) =
      [("M", [sampleIcon "bb" false ".aa"].map (fun i => (gM2.priority, i)) ++
          [sampleIcon "aa" false ".bb"].map (fun i => (gM5.priority, i)))] ∧
    sort_icons fs0 ({} : LayoutSettings).sort_order
        ([sampleIcon "bb" false ".aa"].map (fun i => (gM2.priority, i)) ++
         [sampleIcon "aa" false ".bb"].map (fun i => (gM5.priority, i))) =
      sort_icons fs0 ({} : LayoutSettings).sort_order
        ([sampleIcon "bb" false ".aa"].map (fun i => (gM2.priority, i))) ++
      sort_icons fs0 ({} : LayoutSettings).sort_order
        ([sampleIcon "aa" false ".bb"].map (fun i => (gM5.priority, i))) ∧
    calculate_positions fs0 {}
        [(gM2.name, [sampleIcon "bb" false ".aa"]),
         (gM5.name, [sampleIcon "aa" false ".bb"])] [gM2, gM5] mon2x4
        (100, 50) (some (0, 0)) =
      (sort_icons fs0 ({} : LayoutSettings).sort_order
          ([sampleIcon "bb" false ".aa"].map (fun i => (gM2.priority, i)) ++
           [sampleIcon "aa" false ".bb"].map
             (fun i => (gM5.priority, i)))).enum.map
        (fun p => (p.2.name,
          cellPos (origin_of {} mon2x4 (some (0, 0))) 100 50
            (cellOf (grid_max_rows {} mon2x4 50) p.1))) :=
  merge_group_unit fs0 {} gM2 gM5 [sampleIcon "bb" false ".aa"]
    [sampleIcon "aa" false ".bb"] mon2x4 100 50 (some (0, 0)) "M"
    (by decide) (by decide) (by decide) (by decide) (by decide) (by decide)
    (by decide) (by decide) (by decide) (by decide) (by decide) (by decide)

/-- Witness for C10 at the worked example input. -/
theorem calculate_positions_in_grid_witness :
    (origin_of {} mon2x4 (some (0, 0))).1 ≤
      (("f1", ((0 : Int), (0 : Int))) : String × Int × Int).2.1 ∧
    (("f1", ((0 : Int), (0 : Int))) : String × Int × Int).2.1 ≤
      (origin_of {} mon2x4 (some (0, 0))).1 +
        ((grid_max_cols {} mon2x4 100 : Int) - 1) * 100 ∧
    (origin_of {} mon2x4 (some (0, 0))).2 ≤
      (("f1", ((0 : Int), (0 : Int))) : String × Int × Int).2.2 ∧
    (("f1", ((0 : Int), (0 : Int))) : String × Int × Int).2.2 ≤
      (origin_of {} mon2x4 (some (0, 0))).2 +
        ((grid_max_rows {} mon2x4 50 : Int) - 1) * 50 :=
  calculate_positions_in_grid fs0 {} classifiedExample [gFolders, gDocs]
    mon2x4 100 50 (some (0, 0)) (by decide) (by decide)
    ("f1", ((0 : Int), (0 : Int))) (by decide)

/-! Lemmas about `chunkBy` (the `itertools.groupby` model), for C7. -/

theorem chunkCons_flatten {α : Type} (p : α → α → Bool) (x : α) :
    ∀ cs : List (List α), (chunkCons p x cs).flatten = x :: cs.flatten
  | [] => by simp [chunkCons]
  | [] :: cs' => by simp [chunkCons]
  | (y :: ys) :: cs' => by
    simp only [chunkCons]
    split <;> simp

theorem chunkBy_flatten {α : Type} (p : α → α → Bool) :
    ∀ l : List α, (chunkBy p l).flatten = l
  | [] => rfl
  | x :: xs => by
    rw [chunkBy, chunkCons_flatten, chunkBy_flatten p xs]

theorem chunkBy_ne_nil {α : Type} (p : α → α → Bool) :
    ∀ (l : List α) (c : List α), c ∈ chunkBy p l → c ≠ []
  | [], c => by simp [chunkBy]
  | x :: xs, c => by
    intro hc
    rw [chunkBy] at hc
    rcases hcx : chunkBy p xs with _ | ⟨c', cs'⟩
    · rw [hcx] at hc
      simp only [chunkCons, List.mem_singleton] at hc
      simp [hc]
    · rw [hcx] at hc
      cases c' with
      | nil =>
        exact absurd rfl
          (chunkBy_ne_nil p xs [] (by rw [hcx]; exact List.mem_cons_self _ _))
      | cons y ys =>
        simp only [chunkCons] at hc
        split at hc <;> rcases List.mem_cons.1 hc with rfl | hc
        · simp
        · exact chunkBy_ne_nil p xs c (by rw [hcx]; exact List.mem_cons_of_mem _ hc)
        · simp
        · exact chunkBy_ne_nil p xs c (by rw [hcx]; exact hc)

theorem mem_of_mem_chunkBy {α : Type} {p : α → α → Bool} {l : List α}
    {c : List α} {a : α} (hc : c ∈ chunkBy p l) (ha : a ∈ c) : a ∈ l := by
  have : a ∈ (chunkBy p l).flatten := List.mem_flatten.2 ⟨c, hc, ha⟩
  rwa [chunkBy_flatten] at this

theorem chunkBy_key_const {α : Type} (f : α → Int) :
    ∀ (l : List α) (c : List α),
      c ∈ chunkBy (fun a b => f a == f b) l →
      ∀ a ∈ c, ∀ b ∈ c, f a = f b
  | [], c => by simp [chunkBy]
  | x :: xs, c => by
    intro hc a ha b hb
    rw [chunkBy] at hc
    rcases hcx : chunkBy (fun a b => f a == f b) xs with _ | ⟨c', cs'⟩
    · rw [hcx] at hc
      simp only [chunkCons, List.mem_singleton] at hc
      subst hc
      simp only [List.mem_singleton] at ha hb
      rw [ha, hb]
    · rw [hcx] at hc
      cases c' with
      | nil =>
        exact absurd rfl
          (chunkBy_ne_nil _ xs [] (by rw [hcx]; exact List.mem_cons_self _ _))
      | cons y ys =>
        have hhead : (y :: ys) ∈ chunkBy (fun a b => f a == f b) xs := by
          rw [hcx]; exact List.mem_cons_self _ _
        have hconst : ∀ z ∈ y :: ys, f z = f y := fun z hz =>
          chunkBy_key_const f xs (y :: ys) hhead z hz y (List.mem_cons_self _ _)
        simp only [chunkCons] at hc
        split at hc
        · rename_i hpxy
          rw [beq_iff_eq] at hpxy
          rcases List.mem_cons.1 hc with rfl | hc
          · have hval : ∀ z ∈ x :: y :: ys, f z = f y := by
              intro z hz
              rcases List.mem_cons.1 hz with rfl | hz
              · exact hpxy
              · exact hconst z hz
            rw [hval a ha, hval b hb]
          · exact chunkBy_key_const f xs c
              (by rw [hcx]; exact List.mem_cons_of_mem _ hc) a ha b hb
        · rcases List.mem_cons.1 hc with rfl | hc
          · simp only [List.mem_singleton] at ha hb
            rw [ha, hb]
          · exact chunkBy_key_const f xs c (by rw [hcx]; exact hc) a ha b hb

theorem chunkBy_cross (f : (Int × DesktopIcon) → Int) :
    ∀ l : List (Int × DesktopIcon),
      l.Pairwise (fun a b => f a ≤ f b) →
      (chunkBy (fun a b => f a == f b) l).Pairwise
        (fun c d => ∀ a ∈ c, ∀ b ∈ d, f a < f b)
  | [] => by simp [chunkBy]
  | x :: xs => by
    intro hsort
    rw [List.pairwise_cons] at hsort
    have ih := chunkBy_cross f xs hsort.2
    rw [chunkBy]
    rcases hcx : chunkBy (fun a b => f a == f b) xs with _ | ⟨c', cs'⟩
    · simp [chunkCons]
    · rw [hcx] at ih
      cases c' with
      | nil =>
        exact absurd rfl
          (chunkBy_ne_nil _ xs [] (by rw [hcx]; exact List.mem_cons_self _ _))
      | cons y ys =>
        have hmem_xs : ∀ z ∈ y :: ys, z ∈ xs := fun z hz =>
          mem_of_mem_chunkBy (p := fun a b => f a == f b)
            (by rw [hcx]; exact List.mem_cons_self _ _) hz
        have hconst : ∀ z ∈ y :: ys, f z = f y := fun z hz =>
          chunkBy_key_const f xs (y :: ys)
            (by rw [hcx]; exact List.mem_cons_self _ _) z hz y
            (List.mem_cons_self _ _)
        rw [List.pairwise_cons] at ih
        by_cases hpxy : (f x == f y) = true
        · rw [beq_iff_eq] at hpxy
          simp only [chunkCons, if_pos (beq_iff_eq.2 hpxy)]
          rw [List.pairwise_cons]
          refine ⟨?_, ih.2⟩
          intro d hd a ha b hb
          rcases List.mem_cons.1 ha with rfl | ha
          · exact hpxy ▸ ih.1 d hd y (List.mem_cons_self _ _) b hb
          · exact ih.1 d hd a ha b hb
        · simp only [chunkCons, if_neg hpxy]
          rw [beq_iff_eq] at hpxy
          rw [List.pairwise_cons]
          constructor
          · intro d hd a ha b hb
            simp only [List.mem_singleton] at ha
            subst ha
            rcases List.mem_cons.1 hd with rfl | hd
            · have h1 : f a ≤ f b := hsort.1 b (hmem_xs b hb)
              have h2 : f b = f y := hconst b hb
              have h3 : f a ≠ f y := hpxy
              omega
            · have h1 : f a ≤ f y := hsort.1 y (hmem_xs y (List.mem_cons_self _ _))
              have h2 : f y < f b := ih.1 d hd y (List.mem_cons_self _ _) b hb
              omega
          · rw [List.pairwise_cons]
            exact ⟨ih.1, ih.2⟩

theorem flatten_map_perm {α : Type} {f : List α → List α}
    (cs : List (List α)) (h : ∀ c ∈ cs, (f c).Perm c) :
    ((cs.map f).flatten).Perm cs.flatten := by
  induction cs with
  | nil => simp
  | cons c cs' ih =>
    simp only [List.map_cons, List.flatten_cons]
    exact (h c (List.mem_cons_self _ _)).append
      (ih (fun c' hc' => h c' (List.mem_cons_of_mem _ hc')))

theorem sort_icons_tagged_perm (fs : FileSystem) (so : SortOrder)
    (l : List (Int × DesktopIcon)) : (sort_icons_tagged fs so l).Perm l := by
  unfold sort_icons_tagged
  cases hdesc : so.isDesc with
  | true =>
    rw [if_pos rfl]
    refine (flatten_map_perm _ (fun c _ => stableSort_perm _ c)).trans ?_
    rw [chunkBy_flatten]
    exact stableSort_perm _ l
  | false =>
    rw [if_neg Bool.false_ne_true]
    exact stableSort_perm _ l

theorem sort_icons_perm (fs : FileSystem) (so : SortOrder)
    (l : List (Int × DesktopIcon)) :
    (sort_icons fs so l).Perm (l.map (fun p => p.2)) :=
  (sort_icons_tagged_perm fs so l).map _

theorem secondary_num (fs : FileSystem) (so : SortOrder) (icon : DesktopIcon)
    (hso : ¬(so = SortOrder.name_asc ∨ so = SortOrder.name_desc)) :
    ∃ n, secondary fs so icon = Sec.num n := by
  unfold secondary
  rw [if_neg hso]
  by_cases hp : icon.path = ""
  · rw [if_pos hp]
    exact ⟨0, rfl⟩
  · rw [if_neg hp]
    cases fs icon.path with
    | none => exact ⟨0, rfl⟩
    | some st =>
      rcases so with _ | _ | _ | _ | _ | _ | _ | _ <;> simp_all

theorem secondary_missing (fs : FileSystem) (so : SortOrder)
    (icon : DesktopIcon)
    (hso : ¬(so = SortOrder.name_asc ∨ so = SortOrder.name_desc))
    (hmiss : icon.path = "" ∨ fs icon.path = none) :
    secondary fs so icon = Sec.num 0 := by
  unfold secondary
  rw [if_neg hso]
  by_cases hp : icon.path = ""
  · rw [if_pos hp]
  · rw [if_neg hp]
    rcases hmiss with hmiss | hmiss
    · exact absurd hmiss hp
    · rw [hmiss]

/-- C7: for a `_desc` sort order, the tagged sort is a permutation of its
input in which any earlier element has a strictly smaller priority or an
equal priority with a secondary key at least as large — priority buckets
are concatenated in ascending order and never interleaved, and only the
secondary key is reversed inside each bucket.  Moreover, for the time/size
orders an icon whose backing file is missing gets secondary key `num 0`,
the least possible secondary key among all icons. -/
theorem sort_desc_characterization (fs : FileSystem) (so : SortOrder)
    (l : List (Int × DesktopIcon)) (hdesc : so.isDesc = true) :
    (sort_icons_tagged fs so l).Perm l ∧
    (sort_icons_tagged fs so l).Pairwise
      (fun a b => a.1 < b.1 ∨ (a.1 = b.1 ∧
        Sec.le (secondary fs so b.2) (secondary fs so a.2) = true)) ∧
    (∀ icon : DesktopIcon,
      ¬(so = SortOrder.name_asc ∨ so = SortOrder.name_desc) →
      (icon.path = "" ∨ fs icon.path = none) →
      secondary fs so icon = Sec.num 0 ∧
      ∀ t : DesktopIcon, Sec.le (Sec.num 0) (secondary fs so t) = true) := by
  have tot : ∀ a b : Int × DesktopIcon,
      keyLe (sortKey fs so a) (sortKey fs so b) = true ∨
      keyLe (sortKey fs so b) (sortKey fs so a) = true :=
    fun a b => keyLe_total _ _
  have htrans : ∀ a b c : Int × DesktopIcon,
      keyLe (sortKey fs so a) (sortKey fs so b) = true →
      keyLe (sortKey fs so b) (sortKey fs so c) = true →
      keyLe (sortKey fs so a) (sortKey fs so c) = true :=
    fun a b c => keyLe_trans _ _ _
  refine ⟨sort_icons_tagged_perm fs so l, ?_, ?_⟩
  · unfold sort_icons_tagged
    rw [if_pos hdesc]
    rw [List.pairwise_flatten]
    constructor
    · intro c' hc'
      rcases List.mem_map.1 hc' with ⟨c, hc, rfl⟩
      have hconstc := chunkBy_key_const (fun a => a.1) _ c hc
      have hsortc := @stableSort_pairwise (Int × DesktopIcon)
        (fun a b =>
          Sec.le (sortKey fs so b).2 (sortKey fs so a).2)
        (fun a b => secLe_total _ _)
        (fun a b c h1 h2 => secLe_trans _ _ _ h2 h1) c
      refine hsortc.imp_of_mem ?_
      intro a b ha hb hab
      exact Or.inr ⟨hconstc a (mem_stableSort.1 ha) b (mem_stableSort.1 hb),
        hab⟩
    · have hs : (stableSort
          (fun a b => keyLe (sortKey fs so a) (sortKey fs so b)) l).Pairwise
          (fun a b : Int × DesktopIcon => a.1 ≤ b.1) := by
        refine (stableSort_pairwise tot htrans l).imp ?_
        intro a b hab
        unfold keyLe at hab
        simp only [Bool.or_eq_true, Bool.and_eq_true, decide_eq_true_eq]
          at hab
        rcases hab with h | ⟨h, _⟩
        · exact le_of_lt h
        · simp only [sortKey] at h
          omega
      have hcross := chunkBy_cross (fun a => a.1) _ hs
      rw [List.pairwise_map]
      refine hcross.imp_of_mem ?_
      intro c d _ _ hcd a ha b hb
      exact Or.inl (hcd a (mem_stableSort.1 ha) b (mem_stableSort.1 hb))
  · intro icon hso hmiss
    refine ⟨secondary_missing fs so icon hso hmiss, ?_⟩
    intro t
    obtain ⟨n, hn⟩ := secondary_num fs so t hso
    rw [hn]
    simp [Sec.le]

/-- Witness for C7: `size_desc` over one existing and one missing file. -/
theorem sort_desc_characterization_witness :
    (sort_icons_tagged fsOne SortOrder.size_desc
        [(2, fileIcon "E" "C:/exists.bin" ".bin"),
         (2, sampleIcon "M" false ".bin")]).Perm
      [(2, fileIcon "E" "C:/exists.bin" ".bin"),
       (2, sampleIcon "M" false ".bin")] ∧
    (sort_icons_tagged fsOne SortOrder.size_desc
        [(2, fileIcon "E" "C:/exists.bin" ".bin"),
         (2, sampleIcon "M" false ".bin")]).Pairwise
      (fun a b => a.1 < b.1 ∨ (a.1 = b.1 ∧
        Sec.le (secondary fsOne SortOrder.size_desc b.2)
          (secondary fsOne SortOrder.size_desc a.2) = true)) ∧
    (∀ icon : DesktopIcon,
      ¬(SortOrder.size_desc = SortOrder.name_asc ∨
        SortOrder.size_desc = SortOrder.name_desc) →
      (icon.path = "" ∨ fsOne icon.path = none) →
      secondary fsOne SortOrder.size_desc icon = Sec.num 0 ∧
      ∀ t : DesktopIcon,
        Sec.le (Sec.num 0) (secondary fsOne SortOrder.size_desc t) = true) :=
  sort_desc_characterization fsOne SortOrder.size_desc
    [(2, fileIcon "E" "C:/exists.bin" ".bin"),
     (2, sampleIcon "M" false ".bin")] (by decide)

/-! Lemmas for idempotence of the layout under the detected origin (C8). -/

theorem mem_enumFrom_snd {α : Type} :
    ∀ (n : Nat) (l : List α) (x : Nat × α), x ∈ List.enumFrom n l → x.2 ∈ l
  | _, [], x => by simp
  | n, a :: as, x => by
    rw [List.enumFrom_cons]
    intro hx
    rcases List.mem_cons.1 hx with rfl | hx
    · simp
    · exact List.mem_cons_of_mem _ (mem_enumFrom_snd _ as x hx)

theorem posInsert_preserves {ps : List (String × (Int × Int))} {k : String}
    {v : Int × Int} {kv : String × (Int × Int)} (h : kv ∈ ps)
    (hk : kv.1 ≠ k) : kv ∈ posInsert ps k v := by
  unfold posInsert
  split
  · exact List.mem_map.2 ⟨kv, h, by simp [hk]⟩
  · exact List.mem_append_left _ h

theorem stepV_positions_cases (origin : Int × Int)
    (h_spacing v_spacing : Int) (mc mr : Nat) (fr : Bool) (gsc : Nat)
    (st : PState) (ix : Nat × DesktopIcon) :
    (stepV origin h_spacing v_spacing mc mr fr gsc st ix).positions =
      st.positions ∨
    ∃ v, (stepV origin h_spacing v_spacing mc mr fr gsc st ix).positions =
      posInsert st.positions ix.2.name v := by
  simp only [stepV]
  by_cases hfree :
      ((if fr then gsc - ix.1 / mr else min (mc - 1) (gsc + ix.1 / mr)),
        ix.1 % mr) ∈ st.occupied
  · rw [if_neg (by simpa using hfree)]
    cases get_next_free_cell st.occupied
        (if fr then gsc - ix.1 / mr else min (mc - 1) (gsc + ix.1 / mr))
        (ix.1 % mr) mc mr true with
    | some c => exact Or.inr ⟨_, rfl⟩
    | none => exact Or.inl rfl
  · rw [if_pos (by simpa using hfree)]
    exact Or.inr ⟨_, rfl⟩

theorem stepH_positions_cases (origin : Int × Int)
    (h_spacing v_spacing : Int) (mc mr : Nat) (fr : Bool) (gsr : Nat)
    (st : PState) (ix : Nat × DesktopIcon) :
    (stepH origin h_spacing v_spacing mc mr fr gsr st ix).positions =
      st.positions ∨
    ∃ v, (stepH origin h_spacing v_spacing mc mr fr gsr st ix).positions =
      posInsert st.positions ix.2.name v := by
  simp only [stepH]
  by_cases hfree :
      ((if fr then mc - 1 - ix.1 % mc else ix.1 % mc),
        min (mr - 1) (gsr + ix.1 / mc)) ∈ st.occupied
  · rw [if_neg (by simpa using hfree)]
    cases get_next_free_cell st.occupied
        (if fr then mc - 1 - ix.1 % mc else ix.1 % mc)
        (min (mr - 1) (gsr + ix.1 / mc)) mc mr false with
    | some c => exact Or.inr ⟨_, rfl⟩
    | none => exact Or.inl rfl
  · rw [if_pos (by simpa using hfree)]
    exact Or.inr ⟨_, rfl⟩

theorem foldStep_mem_preserve {f : PState → (Nat × DesktopIcon) → PState}
    (hf : ∀ st ix, (f st ix).positions = st.positions ∨
      ∃ v, (f st ix).positions = posInsert st.positions ix.2.name v)
    {kv : String × (Int × Int)} :
    ∀ (el : List (Nat × DesktopIcon)) (st : PState),
      kv ∈ st.positions → (∀ p ∈ el, p.2.name ≠ kv.1) →
      kv ∈ (el.foldl f st).positions
  | [], _, h, _ => h
  | x :: xs, st, h, hn => by
    rw [List.foldl_cons]
    refine foldStep_mem_preserve hf xs _ ?_
      (fun p hp => hn p (List.mem_cons_of_mem _ hp))
    rcases hf st x with he | ⟨v, he⟩
    · rw [he]; exact h
    · rw [he]
      exact posInsert_preserves h (Ne.symm (hn x (List.mem_cons_self _ _)))

theorem foldV_groups_mem_preserve {fs : FileSystem} {so : SortOrder}
    {origin : Int × Int} {h_spacing v_spacing : Int} {mc mr : Nat}
    {fr : Bool} {kv : String × (Int × Int)} :
    ∀ (gl : List (String × List (Int × DesktopIcon))) (acc : PState × Nat),
      kv ∈ acc.1.positions →
      (∀ u ∈ gl, ∀ p ∈ u.2, p.2.name ≠ kv.1) →
      kv ∈ ((gl.foldl
        (fun (acc : PState × Nat) unit =>
          let sorted_icons := sort_icons fs so unit.2
          let st := sorted_icons.enum.foldl
            (stepV origin h_spacing v_spacing mc mr fr acc.2) acc.1
          let cols_used := max 1 ((sorted_icons.length + mr - 1) / mr)
          let next_col :=
            if fr then acc.2 - cols_used
            else min (mc - 1) (acc.2 + cols_used)
          (st, next_col)) acc).1).positions
  | [], _, h, _ => h
  | u :: us, acc, h, hn => by
    rw [List.foldl_cons]
    refine foldV_groups_mem_preserve us _ ?_
      (fun u' hu' => hn u' (List.mem_cons_of_mem _ hu'))
    refine foldStep_mem_preserve
      (stepV_positions_cases origin h_spacing v_spacing mc mr fr acc.2) _
      acc.1 h ?_
    intro p hp
    have hps : p.2 ∈ sort_icons fs so u.2 := mem_enumFrom_snd 0 _ p hp
    have := (sort_icons_perm fs so u.2).mem_iff.1 hps
    rcases List.mem_map.1 this with ⟨q, hq, hq2⟩
    rw [← hq2]
    exact hn u (List.mem_cons_self _ _) q hq

theorem foldH_groups_mem_preserve {fs : FileSystem} {so : SortOrder}
    {origin : Int × Int} {h_spacing v_spacing : Int} {mc mr : Nat}
    {fr : Bool} {kv : String × (Int × Int)} :
    ∀ (gl : List (String × List (Int × DesktopIcon))) (acc : PState × Nat),
      kv ∈ acc.1.positions →
      (∀ u ∈ gl, ∀ p ∈ u.2, p.2.name ≠ kv.1) →
      kv ∈ ((gl.foldl
        (fun (acc : PState × Nat) unit =>
          let sorted_icons := sort_icons fs so unit.2
          let st := sorted_icons.enum.foldl
            (stepH origin h_spacing v_spacing mc mr fr acc.2) acc.1
          let rows_used := max 1 ((sorted_icons.length + mc - 1) / mc)
          let next_row := min (mr - 1) (acc.2 + rows_used)
          (st, next_row)) acc).1).positions
  | [], _, h, _ => h
  | u :: us, acc, h, hn => by
    rw [List.foldl_cons]
    refine foldH_groups_mem_preserve us _ ?_
      (fun u' hu' => hn u' (List.mem_cons_of_mem _ hu'))
    refine foldStep_mem_preserve
      (stepH_positions_cases origin h_spacing v_spacing mc mr fr acc.2) _
      acc.1 h ?_
    intro p hp
    have hps : p.2 ∈ sort_icons fs so u.2 := mem_enumFrom_snd 0 _ p hp
    have := (sort_icons_perm fs so u.2).mem_iff.1 hps
    rcases List.mem_map.1 this with ⟨q, hq, hq2⟩
    rw [← hq2]
    exact hn u (List.mem_cons_self _ _) q hq

theorem stepV_first (origin : Int × Int) (h_spacing v_spacing : Int)
    (mc mr : Nat) (icon : DesktopIcon) :
    stepV origin h_spacing v_spacing mc mr false 0 ⟨[], []⟩ (0, icon) =
      ⟨[(icon.name, cellPos origin h_spacing v_spacing (0, 0))], [(0, 0)]⟩ := by
  simp only [stepV]
  rw [if_neg Bool.false_ne_true]
  rw [Nat.zero_div, Nat.zero_mod, Nat.zero_add,
    Nat.min_eq_right (Nat.zero_le _)]
  rw [if_pos (by simp)]
  unfold placeAt posInsert
  simp

theorem stepH_first (origin : Int × Int) (h_spacing v_spacing : Int)
    (mc mr : Nat) (icon : DesktopIcon) :
    stepH origin h_spacing v_spacing mc mr false 0 ⟨[], []⟩ (0, icon) =
      ⟨[(icon.name, cellPos origin h_spacing v_spacing (0, 0))], [(0, 0)]⟩ := by
  simp only [stepH]
  rw [if_neg Bool.false_ne_true]
  rw [Nat.zero_div, Nat.zero_mod, Nat.zero_add,
    Nat.min_eq_right (Nat.zero_le _)]
  rw [if_pos (by simp)]
  unfold placeAt posInsert
  simp

theorem active_groups_entries_nonempty (classified :
    List (String × List DesktopIcon)) (groups : List IconGroup) :
    ∀ gi ∈ active_groups classified groups, gi.2 ≠ [] := by
  unfold active_groups
  suffices h : ∀ (gs : List IconGroup) (acc : List (IconGroup × List DesktopIcon)),
      (∀ gi ∈ acc, gi.2 ≠ []) →
      ∀ gi ∈ gs.foldl
        (fun acc g =>
          match lookupAssoc classified g.name with
          | some icons => if icons.isEmpty then acc else acc ++ [(g, icons)]
          | none => acc) acc, gi.2 ≠ [] by
    exact h groups [] (by simp)
  intro gs
  induction gs with
  | nil => intro acc h gi hgi; exact h gi hgi
  | cons g gs' ih =>
    intro acc h gi hgi
    rw [List.foldl_cons] at hgi
    refine ih _ ?_ gi hgi
    intro gj hgj
    cases hl : lookupAssoc classified g.name with
    | none =>
      rw [hl] at hgj
      exact h gj hgj
    | some icons =>
      rw [hl] at hgj
      dsimp only at hgj
      by_cases he : icons.isEmpty
      · rw [if_pos he] at hgj
        exact h gj hgj
      · rw [if_neg he] at hgj
        rcases List.mem_append.1 hgj with hgj | hgj
        · exact h gj hgj
        · simp only [List.mem_singleton] at hgj
          subst hgj
          simpa [List.isEmpty_iff] using he

theorem build_fold_acc_append (active : List (IconGroup × List DesktopIcon)) :
    ∀ (gl : List (IconGroup × List DesktopIcon))
      (acc : List (String × List (Int × DesktopIcon)) × List String),
      ∃ t, (gl.foldl
        (fun (acc : List (String × List (Int × DesktopIcon)) × List String)
            gi =>
          if gi.1.merge_group ≠ "" ∧ gi.1.merge_group ∉ acc.2 then
            (acc.1 ++ [(gi.1.merge_group,
              active.flatMap
                (fun gj =>
                  if gj.1.merge_group = gi.1.merge_group then
                    gj.2.map (fun icon => (gj.1.priority, icon))
                  else []))], acc.2 ++ [gi.1.merge_group])
          else if gi.1.merge_group = "" then
            (acc.1 ++ [(gi.1.name, gi.2.map (fun icon => (gi.1.priority, icon)))],
             acc.2)
          else acc) acc).1 = acc.1 ++ t
  | [], acc => ⟨[], by simp⟩
  | gi :: gl', acc => by
    rw [List.foldl_cons]
    split
    · obtain ⟨t, ht⟩ := build_fold_acc_append active gl'
        (acc.1 ++ [(gi.1.merge_group,
          active.flatMap
            (fun gj =>
              if gj.1.merge_group = gi.1.merge_group then
                gj.2.map (fun icon => (gj.1.priority, icon))
              else []))], acc.2 ++ [gi.1.merge_group])
      refine ⟨[(gi.1.merge_group,
        active.flatMap
          (fun gj =>
            if gj.1.merge_group = gi.1.merge_group then
              gj.2.map (fun icon => (gj.1.priority, icon))
            else []))] ++ t, ?_⟩
      rw [ht]
      simp [List.append_assoc]
    · split
      · obtain ⟨t, ht⟩ := build_fold_acc_append active gl'
          (acc.1 ++ [(gi.1.name, gi.2.map (fun icon => (gi.1.priority, icon)))],
           acc.2)
        refine ⟨[(gi.1.name,
          gi.2.map (fun icon => (gi.1.priority, icon)))] ++ t, ?_⟩
        rw [ht]
        simp [List.append_assoc]
      · exact build_fold_acc_append active gl' acc

theorem build_merged_cons (a : IconGroup × List DesktopIcon)
    (rest : List (IconGroup × List DesktopIcon)) (ha : a.2 ≠ []) :
    ∃ u us, build_merged (a :: rest) = u :: us ∧ u.2 ≠ [] := by
  unfold build_merged
  rw [List.foldl_cons]
  dsimp only
  by_cases hm : a.1.merge_group = ""
  · rw [if_neg (by simp [hm])]
    rw [if_pos hm]
    obtain ⟨t, ht⟩ := build_fold_acc_append (a :: rest) rest
      ([] ++ [(a.1.name, a.2.map (fun icon => (a.1.priority, icon)))], [])
    rw [ht]
    refine ⟨(a.1.name, a.2.map (fun icon => (a.1.priority, icon))), t,
      by simp, ?_⟩
    simp [ha]
  · rw [if_pos ⟨hm, by simp⟩]
    obtain ⟨t, ht⟩ := build_fold_acc_append (a :: rest) rest
      ([] ++ [(a.1.merge_group,
        (a :: rest).flatMap
          (fun gj =>
            if gj.1.merge_group = a.1.merge_group then
              gj.2.map (fun icon => (gj.1.priority, icon))
            else []))], [] ++ [a.1.merge_group])
    rw [ht]
    refine ⟨(a.1.merge_group,
      (a :: rest).flatMap
        (fun gj =>
          if gj.1.merge_group = a.1.merge_group then
            gj.2.map (fun icon => (gj.1.priority, icon))
          else [])), t, by simp, ?_⟩
    intro hc
    simp [List.append_eq_nil, List.map_eq_nil_iff, ha] at hc

theorem foldl_min_le_init {α : Type} (g : α → Int) :
    ∀ (l : List α) (a : Int), l.foldl (fun acc q => min acc (g q)) a ≤ a
  | [], a => le_refl a
  | x :: xs, a =>
    le_trans (foldl_min_le_init g xs (min a (g x))) (min_le_left _ _)

theorem foldl_min_le_mem {α : Type} (g : α → Int) :
    ∀ (l : List α) (a : Int) (q : α), q ∈ l →
      l.foldl (fun acc q => min acc (g q)) a ≤ g q
  | x :: xs, a, q, hq => by
    rw [List.foldl_cons]
    rcases List.mem_cons.1 hq with rfl | hq
    · exact le_trans (foldl_min_le_init g xs _) (min_le_right _ _)
    · exact foldl_min_le_mem g xs _ q hq

theorem le_foldl_min {α : Type} (g : α → Int) (t : Int) :
    ∀ (l : List α) (a : Int), t ≤ a → (∀ q ∈ l, t ≤ g q) →
      t ≤ l.foldl (fun acc q => min acc (g q)) a
  | [], a, h, _ => h
  | x :: xs, a, h, hq => by
    rw [List.foldl_cons]
    exact le_foldl_min g t xs _ (le_min h (hq x (List.mem_cons_self _ _)))
      (fun q hqq => hq q (List.mem_cons_of_mem _ hqq))

theorem cellPos_zero (origin : Int × Int) (h_spacing v_spacing : Int) :
    cellPos origin h_spacing v_spacing (0, 0) = origin := by
  simp [cellPos]

theorem runVertical_first_entry (fs : FileSystem) (so : SortOrder)
    (origin : Int × Int) (h_spacing v_spacing : Int) (mc mr : Nat)
    (u : String × List (Int × DesktopIcon))
    (us : List (String × List (Int × DesktopIcon)))
    (hu : u.2 ≠ [])
    (hnodup : ((u.2.map (fun p => p.2.name)) ++
      ((us.flatMap (fun x => x.2)).map (fun p => p.2.name))).Nodup) :
    ∃ kv ∈ (runVertical fs so origin h_spacing v_spacing mc mr false
      (u :: us)).positions, kv.2 = origin := by
  rw [List.nodup_append] at hnodup
  obtain ⟨hleft, -, hdisj⟩ := hnodup
  have hperm := sort_icons_perm fs so u.2
  have hsne : sort_icons fs so u.2 ≠ [] := by
    intro hc
    rw [hc] at hperm
    have h0 : u.2.map (fun p => p.2) = [] := List.Perm.eq_nil hperm.symm
    rw [List.map_eq_nil_iff] at h0
    exact hu h0
  obtain ⟨icon₀, tl, hs0⟩ := List.exists_cons_of_ne_nil hsne
  have hsortednames : ((icon₀ :: tl).map (fun i => i.name)).Nodup := by
    have hp := hperm.map (fun i => i.name)
    rw [hs0] at hp
    refine hp.nodup_iff.2 ?_
    simpa [List.map_map, Function.comp] using hleft
  rw [List.map_cons, List.nodup_cons] at hsortednames
  obtain ⟨hicon₀notin, -⟩ := hsortednames
  have hicon₀mem : icon₀.name ∈ u.2.map (fun p => p.2.name) := by
    have hmem : icon₀ ∈ sort_icons fs so u.2 := by
      rw [hs0]; exact List.mem_cons_self _ _
    have := hperm.mem_iff.1 hmem
    rcases List.mem_map.1 this with ⟨q, hq, hq2⟩
    exact List.mem_map.2 ⟨q, hq, by rw [hq2]⟩
  have htail : ∀ p ∈ List.enumFrom 1 tl, p.2.name ≠
      ((icon₀.name, cellPos origin h_spacing v_spacing (0, 0)) :
        String × (Int × Int)).1 := by
    intro p hp hc
    have hc' : p.2.name = icon₀.name := hc
    have hsnd := mem_enumFrom_snd 1 tl p hp
    exact hicon₀notin (hc' ▸ List.mem_map.2 ⟨p.2, hsnd, rfl⟩)
  have hunits : ∀ u' ∈ us, ∀ p ∈ u'.2, p.2.name ≠
      ((icon₀.name, cellPos origin h_spacing v_spacing (0, 0)) :
        String × (Int × Int)).1 := by
    intro u' hu' p hp hc
    have hin : p.2.name ∈ (us.flatMap (fun x => x.2)).map
        (fun p => p.2.name) :=
      List.mem_map.2 ⟨p, List.mem_flatMap.2 ⟨u', hu', hp⟩, rfl⟩
    have hc' : p.2.name = icon₀.name := hc
    exact hdisj hicon₀mem (hc' ▸ hin)
  refine ⟨(icon₀.name, cellPos origin h_spacing v_spacing (0, 0)), ?_,
    cellPos_zero _ _ _⟩
  have h1 : (icon₀.name, cellPos origin h_spacing v_spacing (0, 0)) ∈
      ((sort_icons fs so u.2).enum.foldl
        (stepV origin h_spacing v_spacing mc mr false 0)
        ⟨[], []⟩).positions := by
    rw [hs0]
    rw [show List.enum (icon₀ :: tl) = (0, icon₀) :: List.enumFrom 1 tl
      from rfl]
    rw [List.foldl_cons, stepV_first]
    exact foldStep_mem_preserve
      (stepV_positions_cases origin h_spacing v_spacing mc mr false 0)
      (List.enumFrom 1 tl) _ (by simp) htail
  show _ ∈ (runVertical fs so origin h_spacing v_spacing mc mr false
    (u :: us)).positions
  unfold runVertical
  rw [if_neg Bool.false_ne_true, if_neg Bool.false_ne_true]
  refine foldV_groups_mem_preserve us _ ?_ hunits
  exact h1

theorem runHorizontal_first_entry (fs : FileSystem) (so : SortOrder)
    (origin : Int × Int) (h_spacing v_spacing : Int) (mc mr : Nat)
    (u : String × List (Int × DesktopIcon))
    (us : List (String × List (Int × DesktopIcon)))
    (hu : u.2 ≠ [])
    (hnodup : ((u.2.map (fun p => p.2.name)) ++
      ((us.flatMap (fun x => x.2)).map (fun p => p.2.name))).Nodup) :
    ∃ kv ∈ (runHorizontal fs so origin h_spacing v_spacing mc mr false
      (u :: us)).positions, kv.2 = origin := by
  rw [List.nodup_append] at hnodup
  obtain ⟨hleft, -, hdisj⟩ := hnodup
  have hperm := sort_icons_perm fs so u.2
  have hsne : sort_icons fs so u.2 ≠ [] := by
    intro hc
    rw [hc] at hperm
    have h0 : u.2.map (fun p => p.2) = [] := List.Perm.eq_nil hperm.symm
    rw [List.map_eq_nil_iff] at h0
    exact hu h0
  obtain ⟨icon₀, tl, hs0⟩ := List.exists_cons_of_ne_nil hsne
  have hsortednames : ((icon₀ :: tl).map (fun i => i.name)).Nodup := by
    have hp := hperm.map (fun i => i.name)
    rw [hs0] at hp
    refine hp.nodup_iff.2 ?_
    simpa [List.map_map, Function.comp] using hleft
  rw [List.map_cons, List.nodup_cons] at hsortednames
  obtain ⟨hicon₀notin, -⟩ := hsortednames
  have hicon₀mem : icon₀.name ∈ u.2.map (fun p => p.2.name) := by
    have hmem : icon₀ ∈ sort_icons fs so u.2 := by
      rw [hs0]; exact List.mem_cons_self _ _
    have := hperm.mem_iff.1 hmem
    rcases List.mem_map.1 this with ⟨q, hq, hq2⟩
    exact List.mem_map.2 ⟨q, hq, by rw [hq2]⟩
  have htail : ∀ p ∈ List.enumFrom 1 tl, p.2.name ≠
      ((icon₀.name, cellPos origin h_spacing v_spacing (0, 0)) :
        String × (Int × Int)).1 := by
    intro p hp hc
    have hc' : p.2.name = icon₀.name := hc
    have hsnd := mem_enumFrom_snd 1 tl p hp
    exact hicon₀notin (hc' ▸ List.mem_map.2 ⟨p.2, hsnd, rfl⟩)
  have hunits : ∀ u' ∈ us, ∀ p ∈ u'.2, p.2.name ≠
      ((icon₀.name, cellPos origin h_spacing v_spacing (0, 0)) :
        String × (Int × Int)).1 := by
    intro u' hu' p hp hc
    have hin : p.2.name ∈ (us.flatMap (fun x => x.2)).map
        (fun p => p.2.name) :=
      List.mem_map.2 ⟨p, List.mem_flatMap.2 ⟨u', hu', hp⟩, rfl⟩
    have hc' : p.2.name = icon₀.name := hc
    exact hdisj hicon₀mem (hc' ▸ hin)
  refine ⟨(icon₀.name, cellPos origin h_spacing v_spacing (0, 0)), ?_,
    cellPos_zero _ _ _⟩
  have h1 : (icon₀.name, cellPos origin h_spacing v_spacing (0, 0)) ∈
      ((sort_icons fs so u.2).enum.foldl
        (stepH origin h_spacing v_spacing mc mr false 0)
        ⟨[], []⟩).positions := by
    rw [hs0]
    rw [show List.enum (icon₀ :: tl) = (0, icon₀) :: List.enumFrom 1 tl
      from rfl]
    rw [List.foldl_cons, stepH_first]
    exact foldStep_mem_preserve
      (stepH_positions_cases origin h_spacing v_spacing mc mr false 0)
      (List.enumFrom 1 tl) _ (by simp) htail
  show _ ∈ (runHorizontal fs so origin h_spacing v_spacing mc mr false
    (u :: us)).positions
  unfold runHorizontal
  refine foldH_groups_mem_preserve us _ ?_ hunits
  exact h1

/-- C8 (amended): with `start_from_right` false, positive spacings, at
least one active group and globally distinct icon names, feeding the
output of `calculate_positions` back as current positions — the grid
origin recomputed as the componentwise minimum over those output
positions — reproduces exactly the same mapping: the first processed icon
sits at the origin cell (0,0), so the recomputed origin equals the one
used, and the computation is a fixed point.  (With `start_from_right`
set, the output drifts instead; see the counterexample.) -/
theorem calculate_positions_idempotent
    (fs : FileSystem) (settings : LayoutSettings)
    (classified : List (String × List DesktopIcon)) (groups : List IconGroup)
    (monitor : MonitorInfo) (h_spacing v_spacing : Int) (ox oy : Int)
    (hfr : settings.start_from_right = false)
    (hact : active_groups classified groups ≠ [])
    (hnodup : (((build_merged (active_groups classified groups)).flatMap
      (fun u => u.2)).map (fun p => p.2.name)).Nodup)
    (hh : 0 < h_spacing) (hv : 0 < v_spacing) :
    grid_origin_of_positions
      (calculate_positions fs settings classified groups monitor
        (h_spacing, v_spacing) (some (ox, oy))) = (ox, oy) ∧
    calculate_positions fs settings classified groups monitor
        (h_spacing, v_spacing)
        (some (grid_origin_of_positions
          (calculate_positions fs settings classified groups monitor
            (h_spacing, v_spacing) (some (ox, oy))))) =
      calculate_positions fs settings classified groups monitor
        (h_spacing, v_spacing) (some (ox, oy)) := by
  have hlow : ∀ kv ∈ calculate_positions fs settings classified groups
      monitor (h_spacing, v_spacing) (some (ox, oy)),
      ox ≤ kv.2.1 ∧ oy ≤ kv.2.2 := by
    intro kv hkv
    obtain ⟨c, _, _, hval⟩ :=
      (calculate_positions_inv fs settings classified groups monitor
        h_spacing v_spacing (some (ox, oy)) hh hv).2 kv hkv
    rw [hval]
    constructor
    · exact le_add_of_nonneg_right (mul_nonneg (Int.natCast_nonneg c.1) hh.le)
    · exact le_add_of_nonneg_right (mul_nonneg (Int.natCast_nonneg c.2) hv.le)
  obtain ⟨a, arest, hactive_eq⟩ := List.exists_cons_of_ne_nil hact
  have ha2 : a.2 ≠ [] := active_groups_entries_nonempty classified groups a
    (by rw [hactive_eq]; exact List.mem_cons_self _ _)
  obtain ⟨u, us, hbm, hu2⟩ := build_merged_cons a arest ha2
  have hbm' : build_merged (active_groups classified groups) = u :: us := by
    rw [hactive_eq]; exact hbm
  have hnodup' : ((u.2.map (fun p => p.2.name)) ++
      ((us.flatMap (fun x => x.2)).map (fun p => p.2.name))).Nodup := by
    rw [hbm'] at hnodup
    simpa [List.flatMap_cons, List.map_append] using hnodup
  have hentry : ∃ kv ∈ calculate_positions fs settings classified groups
      monitor (h_spacing, v_spacing) (some (ox, oy)), kv.2 = (ox, oy) := by
    by_cases hdir : settings.direction = ArrangeDirection.vertical
    · have hcalc : calculate_positions fs settings classified groups monitor
          (h_spacing, v_spacing) (some (ox, oy)) =
          (runVertical fs settings.sort_order
            (origin_of settings monitor (some (ox, oy))) h_spacing v_spacing
            (grid_max_cols settings monitor h_spacing)
            (grid_max_rows settings monitor v_spacing) false
            (u :: us)).positions := by
        unfold calculate_positions
        dsimp only
        rw [if_neg (by simp [hactive_eq])]
        rw [if_pos hdir, hfr, hbm']
      rw [hcalc]
      obtain ⟨kv, hm, hval⟩ := runVertical_first_entry fs settings.sort_order
        (origin_of settings monitor (some (ox, oy))) h_spacing v_spacing
        (grid_max_cols settings monitor h_spacing)
        (grid_max_rows settings monitor v_spacing) u us hu2 hnodup'
      exact ⟨kv, hm, hval.trans rfl⟩
    · have hcalc : calculate_positions fs settings classified groups monitor
          (h_spacing, v_spacing) (some (ox, oy)) =
          (runHorizontal fs settings.sort_order
            (origin_of settings monitor (some (ox, oy))) h_spacing v_spacing
            (grid_max_cols settings monitor h_spacing)
            (grid_max_rows settings monitor v_spacing) false
            (u :: us)).positions := by
        unfold calculate_positions
        dsimp only
        rw [if_neg (by simp [hactive_eq])]
        rw [if_neg hdir, hfr, hbm']
      rw [hcalc]
      obtain ⟨kv, hm, hval⟩ := runHorizontal_first_entry fs
        settings.sort_order
        (origin_of settings monitor (some (ox, oy))) h_spacing v_spacing
        (grid_max_cols settings monitor h_spacing)
        (grid_max_rows settings monitor v_spacing) u us hu2 hnodup'
      exact ⟨kv, hm, hval.trans rfl⟩
  obtain ⟨kv₀, hkv₀, hval₀⟩ := hentry
  have houtne : calculate_positions fs settings classified groups monitor
      (h_spacing, v_spacing) (some (ox, oy)) ≠ [] := by
    intro hc
    rw [hc] at hkv₀
    exact absurd hkv₀ (List.not_mem_nil _)
  obtain ⟨p, rest, hout⟩ := List.exists_cons_of_ne_nil houtne
  have hmin : grid_origin_of_positions
      (calculate_positions fs settings classified groups monitor
        (h_spacing, v_spacing) (some (ox, oy))) = (ox, oy) := by
    rw [hout]
    unfold grid_origin_of_positions
    have hlow' : ∀ kv ∈ p :: rest, ox ≤ kv.2.1 ∧ oy ≤ kv.2.2 := by
      rw [← hout]; exact hlow
    have hkv₀' : kv₀ ∈ p :: rest := hout ▸ hkv₀
    have hx : rest.foldl (fun acc q => min acc q.2.1) p.2.1 = ox := by
      refine le_antisymm ?_ ?_
      · rcases List.mem_cons.1 hkv₀' with rfl | hkv
        · refine le_trans (foldl_min_le_init (fun q => q.2.1) rest _) ?_
          rw [hval₀]
        · refine le_trans (foldl_min_le_mem (fun q => q.2.1) rest _ kv₀ hkv) ?_
          rw [hval₀]
      · exact le_foldl_min (fun q => q.2.1) ox rest _
          (hlow' p (List.mem_cons_self _ _)).1
          (fun q hq => (hlow' q (List.mem_cons_of_mem _ hq)).1)
    have hy : rest.foldl (fun acc q => min acc q.2.2) p.2.2 = oy := by
      refine le_antisymm ?_ ?_
      · rcases List.mem_cons.1 hkv₀' with rfl | hkv
        · refine le_trans (foldl_min_le_init (fun q => q.2.2) rest _) ?_
          rw [hval₀]
        · refine le_trans (foldl_min_le_mem (fun q => q.2.2) rest _ kv₀ hkv) ?_
          rw [hval₀]
      · exact le_foldl_min (fun q => q.2.2) oy rest _
          (hlow' p (List.mem_cons_self _ _)).2
          (fun q hq => (hlow' q (List.mem_cons_of_mem _ hq)).2)
    show (rest.foldl (fun acc q => min acc q.2.1) p.2.1,
      rest.foldl (fun acc q => min acc q.2.2) p.2.2) = (ox, oy)
    rw [hx, hy]
  exact ⟨hmin, by rw [hmin]⟩

/-- Witness for C8 at a single-icon input with origin (0, 0). -/
theorem calculate_positions_idempotent_witness :
    grid_origin_of_positions
      (calculate_positions fs0 {} classifiedSingle [gA] mon5x4
        (100, 50) (some (0, 0))) = (0, 0) ∧
    calculate_positions fs0 {} classifiedSingle [gA] mon5x4 (100, 50)
        (some (grid_origin_of_positions
          (calculate_positions fs0 {} classifiedSingle [gA] mon5x4
            (100, 50) (some (0, 0))))) =
      calculate_positions fs0 {} classifiedSingle [gA] mon5x4 (100, 50)
        (some (0, 0)) :=
  calculate_positions_idempotent fs0 {} classifiedSingle [gA] mon5x4
    100 50 0 0 (by decide) (by decide) (by decide) (by decide) (by decide)

end DAS
